import Mathlib

/-!
Shallow embedding of the cell logic of `AC_Cells.py` (Padgett and Powell
autocatalysis model, simultaneous-passing variant), together with the
pieces of the collaborating modules that the file calls into and that are
not part of the provided sources.  Python dictionaries are modelled as
insertion-ordered association lists, Python exceptions as an explicit
error type, list `append`/`pop` as end-of-list operations, and the
seedable random generator `RNG.sample(xs, 1)[0]` as an externally
supplied draw index interpreted modulo the size of the sampled
population (so that a uniformly distributed index yields a uniform
choice over the population).
-/

namespace ACCells

/-- Python `raise` outcomes that the embedded methods can produce. -/
inductive PyError
  | keyError
  | valueError
  | typeError
  | nameError
  | attributeError
deriving DecidableEq

/-- Lookup in an association list modelling a Python dict (first binding wins). -/
def lookupA {κ β : Type} [DecidableEq κ] : List (κ × β) → κ → Option β
  | [], _ => none
  | (k, v) :: rest, a => if k = a then some v else lookupA rest a

/-- Dict assignment `d[k] = v`: replace the binding in place, or append a fresh key. -/
def setA {κ β : Type} [DecidableEq κ] : List (κ × β) → κ → β → List (κ × β)
  | [], k, v => [(k, v)]
  | (k', v') :: rest, k, v =>
      if k' = k then (k, v) :: rest else (k', v') :: setA rest k v

/-- Dict deletion `d.pop(k)`. -/
def eraseA {κ β : Type} [DecidableEq κ] : List (κ × β) → κ → List (κ × β)
  | [], _ => []
  | (k', v') :: rest, k => if k' = k then rest else (k', v') :: eraseA rest k

/-- The key list of an association list. -/
def keysA {κ β : Type} (m : List (κ × β)) : List κ := m.map Prod.fst

/-- Modelled from the spec: `AC_ProductRules.ProductRule` (module absent from
the sources) — an immutable (input-type, output-type) capability instance
with identity; `rid` is the instance identity distinguishing copies of the
same pair. -/
structure ProductRule where
  input : Nat
  output : Nat
  rid : Nat
deriving DecidableEq

/-- Modelled from the spec: `ProductRule.get_input`. -/
def ProductRule.get_input (r : ProductRule) : Nat := r.input

/-- Modelled from the spec: `ProductRule.get_output`. -/
def ProductRule.get_output (r : ProductRule) : Nat := r.output

/-- Modelled from the spec: `ProductRule.get_name` returns the rule-type
identity, i.e. the (input, output) pair. -/
def ProductRule.get_name (r : ProductRule) : Nat × Nat := (r.input, r.output)

/-- Modelled from the spec: `AC_ProductRules.ProductNetRule` (module absent
from the sources) — the per-node RuleTypeAggregate for one (input, output)
pair, carrying the count of instances owned by its node. -/
structure ProductNetRule where
  input : Nat
  output : Nat
  count : Nat
deriving DecidableEq

/-- Modelled from the spec: a token ("product") — a value with a mutable
current type and an identity. -/
structure Product where
  ptype : Nat
  pid : Nat
deriving DecidableEq

/-- Modelled from the spec: `Product.get_type`. -/
def Product.get_type (p : Product) : Nat := p.ptype

/-- The mutable contents of a `Cell` from `AC_Cells.py` that the verified
claims are about.  `neighbors` holds the identities of neighboring cells,
and `repro_type` is the reproduction-policy string parameter. -/
structure Cell where
  product_rules : List (Nat × List (Nat × List ProductRule))
  product_netrules : List ((Nat × Nat) × ProductNetRule)
  products : List (Nat × List Product)
  count_rules : Nat
  active_rule : Option ProductRule
  neighbors : List Nat
  repro_type : String
deriving DecidableEq

instance : Inhabited Cell := ⟨⟨[], [], [], 0, none, [], ""⟩⟩

/-- The state of the cell network (`AC_CellNet`) visible from `AC_Cells.py`:
the cells, the global step counter `master_count`, the bookkeeping field
`last_added_rule`, and two event logs standing for the external
collaborators: `retire_log` records the retirement calls made to the global
rule registry (rule-type name and step count), and `urn_returns` records
the tokens handed back to the urn. -/
structure Net where
  cells : List Cell
  master_count : Nat
  last_added_rule : Nat
  retire_log : List ((Nat × Nat) × Nat)
  urn_returns : List Product
deriving DecidableEq

/-- `RNG.sample(l, 1)[0]` under an externally supplied draw index `i`:
the element at position `i % l.length`, or `none` when `l` is empty
(Python raises `ValueError` there). -/
def sample {α : Type} (l : List α) (i : Nat) : Option α :=
  l.get? (i % l.length)

/-- `Cell.add_Product`: push a token onto the stack for its current type,
creating the stack when the key is absent. -/
def add_Product (c : Cell) (p : Product) : Cell :=
  match lookupA c.products p.get_type with
  | some stack => { c with products := setA c.products p.get_type (stack ++ [p]) }
  | none => { c with products := setA c.products p.get_type [p] }

/-- `Cell.remove_Product`: pop a token of the requested type if one is
stored, returning `none` (not an error) when the key is absent or the
stack is empty. -/
def remove_Product (c : Cell) (t : Nat) : Option Product × Cell :=
  match lookupA c.products t with
  | none => (none, c)
  | some stack =>
      if stack = [] then (none, c)
      else (stack.getLast?,
            { c with products := setA c.products t stack.dropLast })

/-- `Cell.has_rule` for an integer type argument: key presence in the
rule index. -/
def has_rule (c : Cell) (t : Nat) : Bool :=
  (lookupA c.product_rules t).isSome

/-- The `has` list built by `Cell.has_Product`: every stored token whose
type still has a compatible rule, in iteration order. -/
def eligible_tokens (c : Cell) : List Product :=
  c.products.flatMap
    (fun q => if (lookupA c.product_rules q.1).isSome then q.2 else [])

/-- `Cell.has_Product`: collect every stored token whose type still has a
compatible rule, emptying (but not deleting) the stacks of the types that
no longer do, and return the type of a uniformly sampled collected token,
or `none` when nothing was collected. -/
def has_Product (c : Cell) (i : Nat) : Option Nat × Cell :=
  let products' := c.products.map
    (fun q => (q.1, if (lookupA c.product_rules q.1).isSome then q.2 else []))
  let c' := { c with products := products' }
  match sample (eligible_tokens c) i with
  | some p => (some p.get_type, c')
  | none => (none, c')

/-- `Cell.add_ProductRule`: append the instance to its (input, output)
bucket, creating the missing dictionary levels, then increment the
matching aggregate or create it with count 1 (`add_ProductNetRule`), and
increment the total-rule counter.  The `isinstance` guard of the source is
discharged by the argument type. -/
def add_ProductRule (c : Cell) (r : ProductRule) : Cell :=
  let a := r.get_input
  let b := r.get_output
  let pr' :=
    match lookupA c.product_rules a with
    | some inner =>
        match lookupA inner b with
        | some bucket => setA c.product_rules a (setA inner b (bucket ++ [r]))
        | none => setA c.product_rules a (setA inner b [r])
    | none => setA c.product_rules a [(b, [r])]
  let nr' :=
    match lookupA c.product_netrules r.get_name with
    | some g => setA c.product_netrules r.get_name { g with count := g.count + 1 }
    | none => c.product_netrules ++ [(r.get_name, ⟨a, b, 1⟩)]
  { c with product_rules := pr', product_netrules := nr',
           count_rules := c.count_rules + 1 }

/-- `Cell.remove_ProductRule`: remove the instance from its bucket,
decrement the matching aggregate and the total counter, and, when the
bucket became empty, pop the aggregate, notify the registry (recorded as a
retirement event carrying the supplied current global step count), pop the
output leaf, and pop the input level if it became empty.  Missing keys
raise `KeyError` and a missing instance raises `ValueError`, as in Python. -/
def remove_ProductRule (c : Cell) (r : ProductRule) (step : Nat) :
    Except PyError (Cell × List ((Nat × Nat) × Nat)) :=
  let a := r.get_input
  let b := r.get_output
  match lookupA c.product_rules a with
  | none => .error .keyError
  | some inner =>
      match lookupA inner b with
      | none => .error .keyError
      | some bucket =>
          if r ∈ bucket then
            match lookupA c.product_netrules r.get_name with
            | none => .error .keyError
            | some g =>
                let bucket' := bucket.erase r
                let nr₁ := setA c.product_netrules r.get_name
                             { g with count := g.count - 1 }
                let cnt' := c.count_rules - 1
                if bucket' = [] then
                  let nr₂ := eraseA nr₁ r.get_name
                  let inner' := eraseA inner b
                  let pr' := if inner' = [] then eraseA c.product_rules a
                             else setA c.product_rules a inner'
                  .ok ({ c with product_rules := pr', product_netrules := nr₂,
                                count_rules := cnt' },
                       [(r.get_name, step)])
                else
                  .ok ({ c with
                           product_rules :=
                             setA c.product_rules a (setA inner b bucket'),
                           product_netrules := nr₁,
                           count_rules := cnt' },
                       [])
          else .error .valueError

/-- `Cell.set_active_rule`: set the active rule after checking that the
instance is in its own bucket.  A missing index key raises `KeyError`
before the check; a failing check executes `raise InstanceError(...)`,
and since the name `InstanceError` is defined nowhere, evaluating it
raises `NameError`. -/
def set_active_rule (c : Cell) (r : ProductRule) : Except PyError Cell :=
  match lookupA c.product_rules r.get_input with
  | none => .error .keyError
  | some inner =>
      match lookupA inner r.get_output with
      | none => .error .keyError
      | some bucket =>
          if r ∈ bucket then .ok { c with active_rule := some r }
          else .error .nameError

/-- The flattened list of the individual rule instances of a cell, in
index iteration order (the candidate list of `Cell.get_random_rule`). -/
def candidates (c : Cell) : List ProductRule :=
  c.product_rules.flatMap (fun p => p.2.flatMap (fun q => q.2))

/-- `Cell.get_random_rule`: uniform sample over the flattened instance
list; Python raises `ValueError` when the cell holds no rules. -/
def get_random_rule (c : Cell) (i : Nat) : Except PyError ProductRule :=
  match sample (candidates c) i with
  | some r => .ok r
  | none => .error .valueError

/-- `Cell.get_random_rule_of_type`: uniform sample over the instances
whose input is `t`; a missing input key raises `KeyError`. -/
def get_random_rule_of_type (c : Cell) (t : Nat) (i : Nat) :
    Except PyError ProductRule :=
  match lookupA c.product_rules t with
  | none => .error .keyError
  | some inner =>
      match sample (inner.flatMap (fun q => q.2)) i with
      | some r => .ok r
      | none => .error .valueError

/-- `Cell.get_random_neighbor`: with no exclusion, sample the neighbor
list; with an exclusion that is a neighbor, sample a copy of the list
with its first occurrence removed; with an exclusion that is not a
neighbor, raise `TypeError`. -/
def get_random_neighbor (c : Cell) (who : Option Nat) (i : Nat) :
    Except PyError Nat :=
  match who with
  | none =>
      match sample c.neighbors i with
      | some x => .ok x
      | none => .error .valueError
  | some w =>
      if w ∈ c.neighbors then
        match sample (c.neighbors.erase w) i with
        | some x => .ok x
        | none => .error .valueError
      else .error .typeError

/-- The rule instances of the whole network, each tagged with the index of
its owning cell. -/
def allRules (net : Net) : List (Nat × ProductRule) :=
  net.cells.enum.flatMap (fun jc => (candidates jc.2).map (fun r => (jc.1, r)))

/-- Modelled from the spec: `AC_CellNet.remove_random_rule` (module absent
from the sources) — the global extinction draw: select one rule instance
uniformly at random from the entire network and route its removal through
the owning cell's own `remove_ProductRule`, which receives the current
global step count for the registry retirement bookkeeping. -/
def remove_random_rule (net : Net) (i : Nat) : Except PyError Net :=
  match sample (allRules net) i with
  | none => .error .valueError
  | some jr =>
      match remove_ProductRule (net.cells.getD jr.1 default) jr.2
              net.master_count with
      | .error e => .error e
      | .ok ce =>
          .ok { net with cells := net.cells.set jr.1 ce.1,
                         retire_log := net.retire_log ++ ce.2 }

/-- `Cell.reproduce_active_rule` for the cell at index `j`: create a fresh
instance (identity `newId`) of the active rule's type and add it to the
cell, record the step in `last_added_rule`, then trigger the network-wide
extinction draw.  A `none` active rule raises `AttributeError` in Python
when its accessors are called. -/
def reproduce_active_rule (net : Net) (j : Nat) (newId : Nat) (iExt : Nat) :
    Except PyError Net :=
  match (net.cells.getD j default).active_rule with
  | none => .error .attributeError
  | some r =>
      let c' := add_ProductRule (net.cells.getD j default)
                  ⟨r.get_input, r.get_output, newId⟩
      let net' := { net with cells := net.cells.set j c',
                             last_added_rule := net.master_count }
      remove_random_rule net' iExt

/-- Replace the active rule of the cell at index `j`. -/
def setActive (net : Net) (j : Nat) (o : Option ProductRule) : Net :=
  let c' := { net.cells.getD j default with active_rule := o }
  { net with cells := net.cells.set j c' }

/-- Store a token in the inventory of the cell at index `j`. -/
def storeProduct (net : Net) (j : Nat) (p : Product) : Net :=
  { net with cells := net.cells.set j (add_Product (net.cells.getD j default) p) }

/-- `Cell.receive_product` for recipient index `recv` and sender index
`send`: advance the global step counter; if the recipient has a rule
accepting the token's current type then reproduce according to the
recipient's reproduction policy (policy "target": the recipient draws a
compatible rule of its own, reproduces it and clears its active rule;
policy "source": the sender reproduces its active rule and the sender's
active rule is cleared) and store the token in the recipient's inventory;
otherwise hand the token back to the urn.  `iRule` and `iExt` are the
draw indices of the rule selection and of the extinction draw, and
`newId` the identity of the reproduced instance. -/
def receive_product (net : Net) (recv send : Nat) (p : Product)
    (iRule iExt newId : Nat) : Except PyError Net :=
  let net1 := { net with master_count := net.master_count + 1 }
  let c := net1.cells.getD recv default
  let start := p.get_type
  if has_rule c start then
    if c.repro_type = "target" then
      match get_random_rule_of_type c start iRule with
      | .error e => .error e
      | .ok r =>
          let net2 := { net1 with
            cells := net1.cells.set recv { c with active_rule := some r } }
          match reproduce_active_rule net2 recv newId iExt with
          | .error e => .error e
          | .ok net3 => .ok (storeProduct (setActive net3 recv none) recv p)
    else if c.repro_type = "source" then
      match reproduce_active_rule net1 send newId iExt with
      | .error e => .error e
      | .ok net3 => .ok (storeProduct (setActive net3 send none) recv p)
    else .ok (storeProduct net1 recv p)
  else
    .ok { net1 with urn_returns := net1.urn_returns ++ [p] }

instance : Inhabited ProductRule := ⟨⟨0, 0, 0⟩⟩

instance : Inhabited Product := ⟨⟨0, 0⟩⟩

/-- Sum of a valuation of the bindings of an association list. -/
def sumBy {κ β : Type} (f : β → Nat) (m : List (κ × β)) : Nat :=
  (m.map (fun p => f p.2)).sum

/-- The bucket of rule instances stored at one (input, output) pair of a
cell's rule index, when both keys are present. -/
def bucketOf (c : Cell) (a b : Nat) : Option (List ProductRule) :=
  match lookupA c.product_rules a with
  | none => none
  | some inner => lookupA inner b

/-- The number of rule instances of one (input, output) pair of a cell. -/
def bucketLen (c : Cell) (a b : Nat) : Nat := ((bucketOf c a b).getD []).length

/-- The sum of the lengths of all buckets of a cell's rule index. -/
def sumBuckets (c : Cell) : Nat :=
  sumBy (fun inner => sumBy (fun l => l.length) inner) c.product_rules

/-- The sum of the aggregate counts of a cell's netrule index. -/
def sumAggs (c : Cell) : Nat :=
  sumBy (fun g => g.count) c.product_netrules

/-- The stack of stored tokens of one type (empty when the key is absent). -/
def tokenStack (c : Cell) (t : Nat) : List Product :=
  (lookupA c.products t).getD []

/-- Structural well-formedness of a cell's rule bookkeeping, established at
initialization and maintained by every mutation of the code: dictionary
keys are unique, no empty inner dictionary or bucket is kept, every rule
instance sits in the bucket named by its own (input, output) pair, the
aggregate index has exactly one entry per existing bucket and it counts
that bucket's length, and the total-rule counter equals the number of
stored instances, which also equals the sum of the aggregate counts. -/
def WF (c : Cell) : Prop :=
  (keysA c.product_rules).Nodup
  ∧ (∀ p ∈ c.product_rules, (keysA p.2).Nodup)
  ∧ (keysA c.product_netrules).Nodup
  ∧ (∀ p ∈ c.product_rules, p.2 ≠ [])
  ∧ (∀ p ∈ c.product_rules, ∀ q ∈ p.2, q.2 ≠ [])
  ∧ (∀ p ∈ c.product_rules, ∀ q ∈ p.2, ∀ r ∈ q.2, r.input = p.1 ∧ r.output = q.1)
  ∧ (∀ p ∈ c.product_rules, ∀ q ∈ p.2,
       lookupA c.product_netrules (p.1, q.1) = some ⟨p.1, q.1, q.2.length⟩)
  ∧ (∀ e ∈ c.product_netrules, bucketOf c e.1.1 e.1.2 ≠ none)
  ∧ c.count_rules = sumBuckets c
  ∧ sumAggs c = sumBuckets c

instance decidableWF (c : Cell) : Decidable (WF c) := by
  unfold WF
  infer_instance

/-- The total number of rule instances across the whole network. -/
def netTotal (net : Net) : Nat :=
  (net.cells.map (fun c => (candidates c).length)).sum

/-- The cells of a successful result, or the empty network's cells. -/
def okNetD (e : Except PyError Net) : Net :=
  match e with
  | Except.ok n => n
  | Except.error _ => { cells := [], master_count := 0, last_added_rule := 0,
                        retire_log := [], urn_returns := [] }

/-- Whether an embedded call returned without raising. -/
def isOkE {α : Type} (e : Except PyError α) : Bool :=
  match e with
  | Except.ok _ => true
  | Except.error _ => false

/-- Whether a rule draw succeeded with a rule of the given (input, output)
pair. -/
def ruleTypeIs (e : Except PyError ProductRule) (a b : Nat) : Bool :=
  match e with
  | Except.ok r => r.input == a && r.output == b
  | Except.error _ => false

/-- A concrete rule instance of type (1, 2). -/
def r1 : ProductRule := ⟨1, 2, 0⟩

/-- A concrete rule instance of type (2, 3). -/
def rR : ProductRule := ⟨2, 3, 10⟩

/-- A cell with no contents. -/
def cEmpty : Cell :=
  { product_rules := [], product_netrules := [], products := [],
    count_rules := 0, active_rule := none, neighbors := [],
    repro_type := "source" }

/-- A concrete cell owning one rule instance of type (1, 2), which is also
its active rule. -/
def cEx1 : Cell :=
  { product_rules := [(1, [(2, [r1])])],
    product_netrules := [((1, 2), ⟨1, 2, 1⟩)], products := [],
    count_rules := 1, active_rule := some r1, neighbors := [],
    repro_type := "source" }

/-- A one-cell network around `cEx1`. -/
def netEx1 : Net :=
  { cells := [cEx1], master_count := 5, last_added_rule := 0,
    retire_log := [], urn_returns := [] }

/-- A concrete recipient cell owning one rule instance of type (2, 3),
under the "source" reproduction policy. -/
def cRecv : Cell :=
  { product_rules := [(2, [(3, [rR])])],
    product_netrules := [((2, 3), ⟨2, 3, 1⟩)], products := [],
    count_rules := 1, active_rule := none, neighbors := [],
    repro_type := "source" }

/-- A two-cell network: sender `cEx1` at index 0, recipient `cRecv` at
index 1. -/
def net5 : Net :=
  { cells := [cEx1, cRecv], master_count := 0, last_added_rule := 0,
    retire_log := [], urn_returns := [] }

/-- The same recipient under the "target" reproduction policy. -/
def cRecvT : Cell := { cRecv with repro_type := "target" }

/-- The two-cell network with the "target"-policy recipient. -/
def net5t : Net := { net5 with cells := [cEx1, cRecvT] }

/-- A concrete cell with three rule instances of type (1, 2) and one of
type (3, 4). -/
def cW4 : Cell :=
  { product_rules := [(1, [(2, [⟨1, 2, 1⟩, ⟨1, 2, 2⟩, ⟨1, 2, 3⟩])]),
                      (3, [(4, [⟨3, 4, 4⟩])])],
    product_netrules := [((1, 2), ⟨1, 2, 3⟩), ((3, 4), ⟨3, 4, 1⟩)],
    products := [], count_rules := 4, active_rule := none, neighbors := [],
    repro_type := "source" }

/-- A concrete cell storing two tokens of type 1 and one token of type 2,
with a compatible rule for each of the two types. -/
def cW7 : Cell :=
  { product_rules := [(1, [(2, [r1])]), (2, [(3, [rR])])],
    product_netrules := [((1, 2), ⟨1, 2, 1⟩), ((2, 3), ⟨2, 3, 1⟩)],
    products := [(1, [⟨1, 1⟩, ⟨1, 2⟩]), (2, [⟨2, 3⟩])],
    count_rules := 2, active_rule := none, neighbors := [],
    repro_type := "source" }

/-- A concrete cell with neighbor identities 1 and 2. -/
def cW8 : Cell := { cEmpty with neighbors := [1, 2] }

/-- A concrete token of type 5. -/
def p9 : Product := ⟨5, 0⟩

/-- A concrete cell already storing one token of type 5. -/
def cW9 : Cell := { cEmpty with products := [(5, [⟨5, 7⟩])] }

theorem sumBy_cons {κ β : Type} (f : β → Nat) (p : κ × β) (t : List (κ × β)) :
    sumBy f (p :: t) = f p.2 + sumBy f t := by
  simp [sumBy]

theorem length_flatMap_vals {α : Type} (v : List (Nat × List α)) :
    (v.flatMap fun q => q.2).length = sumBy (fun l => l.length) v := by
  induction v with
  | nil => simp [sumBy]
  | cons q t ih => rw [List.flatMap_cons, List.length_append, ih, sumBy_cons]

section AListLemmas

variable {κ β : Type} [DecidableEq κ]

@[simp] theorem keysA_nil : keysA ([] : List (κ × β)) = [] := rfl

@[simp] theorem keysA_cons (p : κ × β) (t : List (κ × β)) :
    keysA (p :: t) = p.1 :: keysA t := rfl

theorem keysA_append (m l : List (κ × β)) :
    keysA (m ++ l) = keysA m ++ keysA l := by
  simp [keysA]

theorem mem_keysA {m : List (κ × β)} {k : κ} {v : β} (h : (k, v) ∈ m) :
    k ∈ keysA m :=
  List.mem_map_of_mem Prod.fst h

theorem lookupA_setA_self (m : List (κ × β)) (k : κ) (v : β) :
    lookupA (setA m k v) k = some v := by
  induction m with
  | nil => simp [setA, lookupA]
  | cons h t ih =>
      obtain ⟨k', v'⟩ := h
      by_cases hk : k' = k
      · simp [setA, hk, lookupA]
      · simp [setA, hk, lookupA, ih]

theorem lookupA_setA_ne (m : List (κ × β)) {k k' : κ} (v : β) (hne : k' ≠ k) :
    lookupA (setA m k v) k' = lookupA m k' := by
  have hne' : ¬(k = k') := fun h => hne h.symm
  induction m with
  | nil => simp [setA, lookupA, hne']
  | cons h t ih =>
      obtain ⟨a, b⟩ := h
      by_cases hk : a = k
      · subst hk
        simp [setA, lookupA, hne']
      · simp [setA, hk, lookupA, ih]

theorem lookupA_eq_none (m : List (κ × β)) (k : κ) :
    lookupA m k = none ↔ k ∉ keysA m := by
  induction m with
  | nil => simp [lookupA]
  | cons p t ih =>
      obtain ⟨a, b⟩ := p
      rw [lookupA, keysA_cons, List.mem_cons]
      by_cases hk : a = k
      · subst hk
        simp
      · have hka : ¬(k = a) := fun h => hk h.symm
        simp [hk, hka, ih]

theorem lookupA_mem {m : List (κ × β)} {k : κ} {v : β}
    (h : lookupA m k = some v) : (k, v) ∈ m := by
  induction m with
  | nil => simp [lookupA] at h
  | cons p t ih =>
      obtain ⟨a, b⟩ := p
      by_cases hk : a = k
      · subst hk
        rw [lookupA, if_pos rfl] at h
        cases h
        exact List.mem_cons_self _ _
      · rw [lookupA, if_neg hk] at h
        exact List.mem_cons_of_mem _ (ih h)

theorem mem_lookupA {m : List (κ × β)} {k : κ} {v : β}
    (hnod : (keysA m).Nodup) (h : (k, v) ∈ m) : lookupA m k = some v := by
  induction m with
  | nil => simp at h
  | cons p t ih =>
      obtain ⟨a, b⟩ := p
      rw [keysA_cons, List.nodup_cons] at hnod
      rcases List.mem_cons.mp h with heq | hmem
      · cases heq
        simp [lookupA]
      · by_cases hk : a = k
        · subst hk
          exact absurd (mem_keysA hmem) hnod.1
        · rw [lookupA, if_neg hk]
          exact ih hnod.2 hmem

theorem keysA_setA_some {m : List (κ × β)} {k : κ} {v : β} (w : β)
    (h : lookupA m k = some v) : keysA (setA m k w) = keysA m := by
  induction m with
  | nil => simp [lookupA] at h
  | cons p t ih =>
      obtain ⟨a, b⟩ := p
      by_cases hk : a = k
      · subst hk
        simp [setA]
      · rw [lookupA, if_neg hk] at h
        rw [setA, if_neg hk, keysA_cons, keysA_cons, ih h]

theorem setA_eq_append {m : List (κ × β)} {k : κ} (v : β)
    (h : lookupA m k = none) : setA m k v = m ++ [(k, v)] := by
  induction m with
  | nil => simp [setA]
  | cons p t ih =>
      obtain ⟨a, b⟩ := p
      by_cases hk : a = k
      · subst hk
        rw [lookupA, if_pos rfl] at h
        cases h
      · rw [lookupA, if_neg hk] at h
        rw [setA, if_neg hk, ih h]
        simp

theorem keysA_setA_none {m : List (κ × β)} {k : κ} (v : β)
    (h : lookupA m k = none) : keysA (setA m k v) = keysA m ++ [k] := by
  rw [setA_eq_append v h, keysA_append]
  rfl

theorem setA_self_eq {m : List (κ × β)} {k : κ} {v : β}
    (h : lookupA m k = some v) : setA m k v = m := by
  induction m with
  | nil => simp [lookupA] at h
  | cons p t ih =>
      obtain ⟨a, b⟩ := p
      by_cases hk : a = k
      · subst hk
        rw [lookupA, if_pos rfl] at h
        cases h
        rw [setA, if_pos rfl]
      · rw [lookupA, if_neg hk] at h
        rw [setA, if_neg hk, ih h]

theorem setA_setA (m : List (κ × β)) (k : κ) (v w : β) :
    setA (setA m k v) k w = setA m k w := by
  induction m with
  | nil => simp [setA]
  | cons p t ih =>
      obtain ⟨a, b⟩ := p
      by_cases hk : a = k
      · subst hk
        rw [setA, if_pos rfl, setA, if_pos rfl, setA, if_pos rfl]
      · rw [setA, if_neg hk, setA, if_neg hk, setA, if_neg hk, ih]

theorem eraseA_sublist (m : List (κ × β)) (k : κ) : (eraseA m k).Sublist m := by
  induction m with
  | nil => simp [eraseA]
  | cons p t ih =>
      obtain ⟨a, b⟩ := p
      by_cases hk : a = k
      · rw [eraseA, if_pos hk]
        exact List.sublist_cons_self _ _
      · rw [eraseA, if_neg hk]
        exact List.Sublist.cons₂ (a, b) ih

theorem keysA_eraseA_sublist (m : List (κ × β)) (k : κ) :
    (keysA (eraseA m k)).Sublist (keysA m) :=
  (eraseA_sublist m k).map Prod.fst

theorem lookupA_eraseA_self {m : List (κ × β)} {k : κ}
    (hnod : (keysA m).Nodup) : lookupA (eraseA m k) k = none := by
  induction m with
  | nil => simp [eraseA, lookupA]
  | cons p t ih =>
      obtain ⟨a, b⟩ := p
      rw [keysA_cons, List.nodup_cons] at hnod
      by_cases hk : a = k
      · subst hk
        rw [eraseA, if_pos rfl, lookupA_eq_none]
        exact hnod.1
      · rw [eraseA, if_neg hk, lookupA, if_neg hk]
        exact ih hnod.2

theorem lookupA_eraseA_ne (m : List (κ × β)) {k k' : κ} (hne : k' ≠ k) :
    lookupA (eraseA m k) k' = lookupA m k' := by
  induction m with
  | nil => simp [eraseA]
  | cons p t ih =>
      obtain ⟨a, b⟩ := p
      by_cases hk : a = k
      · subst hk
        rw [eraseA, if_pos rfl, lookupA, if_neg (fun h => hne h.symm)]
      · rw [eraseA, if_neg hk, lookupA, lookupA]
        by_cases ha : a = k'
        · rw [if_pos ha, if_pos ha]
        · rw [if_neg ha, if_neg ha, ih]

end AListLemmas

section SumLemmas

variable {κ β α : Type} [DecidableEq κ]

theorem sumBy_append (f : β → Nat) (m l : List (κ × β)) :
    sumBy f (m ++ l) = sumBy f m + sumBy f l := by
  simp [sumBy]

theorem sumBy_setA_some (f : β → Nat) {m : List (κ × β)} {k : κ} {v : β}
    (w : β) (h : lookupA m k = some v) :
    sumBy f (setA m k w) + f v = sumBy f m + f w := by
  induction m with
  | nil => simp [lookupA] at h
  | cons p t ih =>
      obtain ⟨a, b⟩ := p
      by_cases hk : a = k
      · subst hk
        simp [lookupA] at h
        subst h
        simp [setA, sumBy]
        omega
      · simp [lookupA, hk] at h
        have := ih h
        simp [setA, hk, sumBy] at this ⊢
        omega

theorem sumBy_setA_none (f : β → Nat) {m : List (κ × β)} {k : κ}
    (w : β) (h : lookupA m k = none) :
    sumBy f (setA m k w) = sumBy f m + f w := by
  rw [setA_eq_append w h, sumBy_append]
  simp [sumBy]

theorem sumBy_eraseA_some (f : β → Nat) {m : List (κ × β)} {k : κ} {v : β}
    (h : lookupA m k = some v) :
    sumBy f (eraseA m k) + f v = sumBy f m := by
  induction m with
  | nil => simp [lookupA] at h
  | cons p t ih =>
      obtain ⟨a, b⟩ := p
      by_cases hk : a = k
      · subst hk
        simp [lookupA] at h
        subst h
        simp [eraseA, sumBy]
        omega
      · simp [lookupA, hk] at h
        have := ih h
        simp [eraseA, hk, sumBy] at this ⊢
        omega

theorem length_flatMap_eq_sumBy (g : β → List α) (m : List (κ × β)) :
    (m.flatMap (fun q => g q.2)).length = sumBy (fun v => (g v).length) m := by
  induction m with
  | nil => simp [sumBy]
  | cons p t ih => simp [sumBy, List.flatMap_cons, ih]

theorem countP_flatMap_zero (p : α → Bool) (l : List (κ × β))
    (g : β → List α) (h : ∀ q ∈ l, (g q.2).countP p = 0) :
    (l.flatMap (fun q => g q.2)).countP p = 0 := by
  induction l with
  | nil => simp
  | cons q t ih =>
      rw [List.flatMap_cons, List.countP_append]
      rw [h q (List.mem_cons_self q t), ih (fun x hx => h x (List.mem_cons_of_mem q hx))]

theorem countP_flatMap_lookup (p : α → Bool) (m : List (κ × β))
    (g : β → List α) (k : κ) (hnod : (keysA m).Nodup)
    (hzero : ∀ q ∈ m, q.1 ≠ k → (g q.2).countP p = 0) :
    (m.flatMap (fun q => g q.2)).countP p
      = ((lookupA m k).map (fun v => (g v).countP p)).getD 0 := by
  induction m with
  | nil => simp [lookupA]
  | cons q t ih =>
      obtain ⟨a, b⟩ := q
      rw [keysA_cons, List.nodup_cons] at hnod
      rw [List.flatMap_cons, List.countP_append]
      by_cases hk : a = k
      · subst hk
        rw [lookupA, if_pos rfl]
        have hz : ∀ x ∈ t, (g x.2).countP p = 0 := by
          intro x hx
          by_cases hxk : x.1 = a
          · have hmem : x.1 ∈ keysA t := List.mem_map_of_mem Prod.fst hx
            exact absurd (hxk ▸ hmem) hnod.1
          · exact hzero x (List.mem_cons_of_mem _ hx) hxk
        rw [countP_flatMap_zero p t g hz]
        simp
      · rw [lookupA, if_neg hk]
        rw [hzero (a, b) (List.mem_cons_self _ t) hk]
        rw [ih hnod.2 (fun x hx hxk => hzero x (List.mem_cons_of_mem _ hx) hxk)]
        omega

theorem countP_range_getD {γ : Type} [Inhabited γ] (l : List γ) (p : γ → Bool) :
    (List.range l.length).countP (fun i => p (l.getD i default)) = l.countP p := by
  induction l with
  | nil => simp
  | cons x t ih =>
      rw [List.length_cons, List.range_succ_eq_map, List.countP_cons, List.countP_map]
      rw [List.countP_cons]
      have : ((fun i => p ((x :: t).getD i default)) ∘ Nat.succ)
           = (fun i => p (t.getD i default)) := rfl
      rw [this, ih]
      simp [List.getD]

end SumLemmas

section SampleLemmas

variable {α : Type}

theorem sample_nil (i : Nat) : sample ([] : List α) i = none := rfl

theorem sample_lt (l : List α) (i : Nat) (d : α) (h : i < l.length) :
    sample l i = some (l.getD i d) := by
  unfold sample
  rw [Nat.mod_eq_of_lt h, List.getD_eq_getElem?_getD]
  rw [List.get?_eq_getElem?, List.getElem?_eq_getElem h]
  simp

theorem sample_mem {l : List α} {i : Nat} {x : α}
    (h : sample l i = some x) : x ∈ l := by
  unfold sample at h
  exact List.get?_mem h

theorem sample_ne_nil (l : List α) (i : Nat) (h : l ≠ []) :
    ∃ x, sample l i = some x ∧ x ∈ l := by
  have hlen : 0 < l.length := List.length_pos.mpr h
  have hm : i % l.length < l.length := Nat.mod_lt _ hlen
  unfold sample
  rw [List.get?_eq_getElem?, List.getElem?_eq_getElem hm]
  exact ⟨l[i % l.length], rfl, List.getElem_mem hm⟩

end SampleLemmas

@[simp] theorem get_input_eq (r : ProductRule) : r.get_input = r.input := rfl

@[simp] theorem get_output_eq (r : ProductRule) : r.get_output = r.output := rfl

@[simp] theorem get_name_eq (r : ProductRule) : r.get_name = (r.input, r.output) := rfl

@[simp] theorem get_type_eq (p : Product) : p.get_type = p.ptype := rfl

theorem length_flat2 (m : List (Nat × List (Nat × List ProductRule))) :
    (m.flatMap fun p => p.2.flatMap fun q => q.2).length
      = sumBy (fun inner => sumBy (fun l => l.length) inner) m := by
  induction m with
  | nil => simp [sumBy]
  | cons p t ih =>
      rw [List.flatMap_cons, List.length_append, ih, sumBy_cons,
          length_flatMap_vals]

theorem length_candidates (c : Cell) : (candidates c).length = sumBuckets c :=
  length_flat2 c.product_rules

/-- Derived form of the aggregate consistency of a well-formed cell: the
aggregate entry of a pair exists exactly when the bucket does, and counts
its length. -/
theorem WF.agg_eq {c : Cell} (hwf : WF c) (a b : Nat) :
    lookupA c.product_netrules (a, b)
      = (bucketOf c a b).map (fun l => (⟨a, b, l.length⟩ : ProductNetRule)) := by
  obtain ⟨h1, h2, h3, h4, h5, h6, h7, h8, h9, h10⟩ := hwf
  cases hb : bucketOf c a b with
  | some l =>
      unfold bucketOf at hb
      cases hpr : lookupA c.product_rules a with
      | none => rw [hpr] at hb; cases hb
      | some inner =>
          rw [hpr] at hb
          exact h7 (a, inner) (lookupA_mem hpr) (b, l) (lookupA_mem hb)
  | none =>
      cases hg : lookupA c.product_netrules (a, b) with
      | none => rfl
      | some g =>
          exact absurd hb (h8 ((a, b), g) (lookupA_mem hg))

theorem count_rules_add (c : Cell) (r : ProductRule) :
    (add_ProductRule c r).count_rules = c.count_rules + 1 := rfl

theorem products_add_ProductRule (c : Cell) (r : ProductRule) :
    (add_ProductRule c r).products = c.products := rfl

theorem active_add_ProductRule (c : Cell) (r : ProductRule) :
    (add_ProductRule c r).active_rule = c.active_rule := rfl

theorem sumBuckets_add (c : Cell) (r : ProductRule) :
    sumBuckets (add_ProductRule c r) = sumBuckets c + 1 := by
  unfold sumBuckets add_ProductRule
  dsimp only
  simp only [get_input_eq, get_output_eq, get_name_eq]
  cases h1 : lookupA c.product_rules r.input with
  | none =>
      simp only [h1]
      rw [sumBy_setA_none _ _ h1]
      simp [sumBy]
  | some inner =>
      cases h2 : lookupA inner r.output with
      | none =>
          simp only [h1, h2]
          have hin : sumBy (fun l => l.length) (setA inner r.output [r])
              = sumBy (fun l => l.length) inner + 1 := by
            simpa using sumBy_setA_none (fun l => l.length) [r] h2
          have hout : sumBy (fun inn => sumBy (fun l => l.length) inn)
                (setA c.product_rules r.input (setA inner r.output [r]))
                + sumBy (fun l => l.length) inner
              = sumBy (fun inn => sumBy (fun l => l.length) inn) c.product_rules
                + sumBy (fun l => l.length) (setA inner r.output [r]) := by
            simpa using sumBy_setA_some
              (fun inn => sumBy (fun l => l.length) inn)
              (setA inner r.output [r]) h1
          omega
      | some bucket =>
          simp only [h1, h2]
          have hin : sumBy (fun l => l.length) (setA inner r.output (bucket ++ [r]))
              = sumBy (fun l => l.length) inner + 1 := by
            have h := sumBy_setA_some (fun l => l.length) (bucket ++ [r]) h2
            simp at h
            omega
          have hout : sumBy (fun inn => sumBy (fun l => l.length) inn)
                (setA c.product_rules r.input
                  (setA inner r.output (bucket ++ [r])))
                + sumBy (fun l => l.length) inner
              = sumBy (fun inn => sumBy (fun l => l.length) inn) c.product_rules
                + sumBy (fun l => l.length) (setA inner r.output (bucket ++ [r])) := by
            simpa using sumBy_setA_some
              (fun inn => sumBy (fun l => l.length) inn)
              (setA inner r.output (bucket ++ [r])) h1
          omega

theorem sumAggs_add (c : Cell) (r : ProductRule) :
    sumAggs (add_ProductRule c r) = sumAggs c + 1 := by
  unfold sumAggs add_ProductRule
  dsimp only
  simp only [get_input_eq, get_output_eq, get_name_eq]
  cases hg : lookupA c.product_netrules (r.input, r.output) with
  | none =>
      simp only [hg]
      rw [sumBy_append]
      simp [sumBy]
  | some g =>
      simp only [hg]
      have hcnt : sumBy (fun x => x.count)
            (setA c.product_netrules (r.input, r.output)
              { g with count := g.count + 1 })
            + g.count
          = sumBy (fun x => x.count) c.product_netrules + (g.count + 1) := by
        simpa using sumBy_setA_some (fun x => x.count)
          ({ g with count := g.count + 1 }) hg
      omega

theorem bucketOf_add_self (c : Cell) (r : ProductRule) :
    bucketOf (add_ProductRule c r) r.input r.output
      = some (((bucketOf c r.input r.output).getD []) ++ [r]) := by
  unfold add_ProductRule bucketOf
  simp only [get_input_eq, get_output_eq, get_name_eq]
  cases h1 : lookupA c.product_rules r.input with
  | none =>
      simp only [h1]
      simp [lookupA_setA_self, lookupA]
  | some inner =>
      cases h2 : lookupA inner r.output with
      | none =>
          simp only [h1, h2]
          simp [lookupA_setA_self, lookupA]
      | some bucket =>
          simp only [h1, h2]
          simp [lookupA_setA_self, lookupA]

theorem mem_candidates_add (c : Cell) (r : ProductRule) :
    r ∈ candidates (add_ProductRule c r) := by
  unfold candidates
  rw [List.mem_flatMap]
  have hb := bucketOf_add_self c r
  unfold bucketOf at hb
  cases hpr : lookupA (add_ProductRule c r).product_rules r.input with
  | none => rw [hpr] at hb; cases hb
  | some inner =>
      rw [hpr] at hb
      refine ⟨(r.input, inner), lookupA_mem hpr, ?_⟩
      rw [List.mem_flatMap]
      exact ⟨(r.output, ((bucketOf c r.input r.output).getD []) ++ [r]),
             lookupA_mem hb, by simp⟩

theorem setA_ne_nil {κ β : Type} [DecidableEq κ] (m : List (κ × β)) (k : κ)
    (v : β) : setA m k v ≠ [] := by
  cases m with
  | nil => simp [setA]
  | cons p t =>
      obtain ⟨a, b⟩ := p
      by_cases hk : a = k <;> simp [setA, hk]

theorem mem_setA_iff {κ β : Type} [DecidableEq κ] {m : List (κ × β)} {k : κ}
    {v : β} {x : κ × β} (hnod : (keysA m).Nodup) :
    x ∈ setA m k v ↔ (x = (k, v) ∨ (x ∈ m ∧ x.1 ≠ k)) := by
  induction m with
  | nil => simp [setA]
  | cons p t ih =>
      obtain ⟨a, b⟩ := p
      rw [keysA_cons, List.nodup_cons] at hnod
      by_cases hk : a = k
      · subst hk
        rw [setA, if_pos rfl]
        constructor
        · intro hx
          rcases List.mem_cons.mp hx with heq | hmem
          · exact Or.inl heq
          · refine Or.inr ⟨List.mem_cons_of_mem _ hmem, ?_⟩
            intro hx1
            exact hnod.1 (hx1 ▸ mem_keysA (show (x.1, x.2) ∈ t from hmem))
        · rintro (rfl | ⟨hmem, hne⟩)
          · exact List.mem_cons_self _ _
          · rcases List.mem_cons.mp hmem with heq | hmem2
            · exact absurd (congrArg Prod.fst heq) hne
            · exact List.mem_cons_of_mem _ hmem2
      · rw [setA, if_neg hk]
        constructor
        · intro hx
          rcases List.mem_cons.mp hx with heq | hmem
          · subst heq
            exact Or.inr ⟨List.mem_cons_self _ _, hk⟩
          · rcases (ih hnod.2).mp hmem with heq | ⟨hmem2, hne⟩
            · exact Or.inl heq
            · exact Or.inr ⟨List.mem_cons_of_mem _ hmem2, hne⟩
        · rintro (rfl | ⟨hmem, hne⟩)
          · exact List.mem_cons_of_mem _ ((ih hnod.2).mpr (Or.inl rfl))
          · rcases List.mem_cons.mp hmem with heq | hmem2
            · exact heq ▸ List.mem_cons_self _ _
            · exact List.mem_cons_of_mem _ ((ih hnod.2).mpr (Or.inr ⟨hmem2, hne⟩))

theorem lookupA_append {κ β : Type} [DecidableEq κ] (m l : List (κ × β))
    (k : κ) :
    lookupA (m ++ l) k
      = match lookupA m k with
        | some v => some v
        | none => lookupA l k := by
  induction m with
  | nil => simp [lookupA]
  | cons p t ih =>
      obtain ⟨a, b⟩ := p
      by_cases hk : a = k
      · simp [lookupA, hk]
      · simp only [List.cons_append, lookupA, if_neg hk]
        exact ih

theorem bucketOf_add_ne (c : Cell) (r : ProductRule) (x y : Nat)
    (h : ¬(x = r.input ∧ y = r.output)) :
    bucketOf (add_ProductRule c r) x y = bucketOf c x y := by
  unfold add_ProductRule bucketOf
  simp only [get_input_eq, get_output_eq, get_name_eq]
  by_cases hx : x = r.input
  · subst hx
    have hy : y ≠ r.output := fun hy => h ⟨rfl, hy⟩
    have hy' : ¬(r.output = y) := fun hh => hy hh.symm
    cases h1 : lookupA c.product_rules r.input with
    | none =>
        simp only [h1]
        rw [lookupA_setA_self]
        simp [lookupA, hy']
    | some inner =>
        cases h2 : lookupA inner r.output with
        | none =>
            simp only [h1, h2]
            rw [lookupA_setA_self]
            exact lookupA_setA_ne inner [r] hy
        | some bucket =>
            simp only [h1, h2]
            rw [lookupA_setA_self]
            exact lookupA_setA_ne inner (bucket ++ [r]) hy
  · cases h1 : lookupA c.product_rules r.input with
    | none =>
        simp only [h1]
        rw [lookupA_setA_ne _ _ hx]
    | some inner =>
        cases h2 : lookupA inner r.output with
        | none =>
            simp only [h1, h2]
            rw [lookupA_setA_ne _ _ hx]
        | some bucket =>
            simp only [h1, h2]
            rw [lookupA_setA_ne _ _ hx]

theorem mem_candidates_wf {c : Cell} {rx : ProductRule} (hwf : WF c)
    (h : rx ∈ candidates c) :
    ∃ inner bucket, lookupA c.product_rules rx.input = some inner
      ∧ lookupA inner rx.output = some bucket ∧ rx ∈ bucket := by
  obtain ⟨h1, h2, h3, h4, h5, h6, h7, h8, h9, h10⟩ := hwf
  unfold candidates at h
  rw [List.mem_flatMap] at h
  obtain ⟨p, hp, hr⟩ := h
  rw [List.mem_flatMap] at hr
  obtain ⟨q, hq, hrq⟩ := hr
  obtain ⟨hi, ho⟩ := h6 p hp q hq rx hrq
  refine ⟨p.2, q.2, ?_, ?_, hrq⟩
  · rw [hi]
    exact mem_lookupA h1 hp
  · rw [ho]
    exact mem_lookupA (h2 p hp) hq

theorem WF_add {c : Cell} (r : ProductRule) (hwf : WF c) :
    WF (add_ProductRule c r) := by
  have hagg0 := hwf.agg_eq r.input r.output
  have hsb := sumBuckets_add c r
  have hsa := sumAggs_add c r
  have hcnt : (add_ProductRule c r).count_rules = c.count_rules + 1 := rfl
  have hbself := bucketOf_add_self c r
  have hbne := bucketOf_add_ne c r
  obtain ⟨h1, h2, h3, h4, h5, h6, h7, h8, h9, h10⟩ := hwf
  cases hlp : lookupA c.product_rules r.input with
  | none =>
      have hbo : bucketOf c r.input r.output = none := by
        unfold bucketOf
        rw [hlp]
      rw [hbo] at hagg0
      simp only [Option.map_none'] at hagg0
      have hshape : add_ProductRule c r = { c with
          product_rules := c.product_rules ++ [(r.input, [(r.output, [r])])],
          product_netrules := c.product_netrules
            ++ [((r.input, r.output), ⟨r.input, r.output, 1⟩)],
          count_rules := c.count_rules + 1 } := by
        unfold add_ProductRule
        simp only [get_input_eq, get_output_eq, get_name_eq, hlp, hagg0]
        rw [setA_eq_append _ hlp]
      rw [hshape] at hsb hsa ⊢
      have hka : r.input ∉ keysA c.product_rules := (lookupA_eq_none _ _).mp hlp
      have hkn : (r.input, r.output) ∉ keysA c.product_netrules :=
        (lookupA_eq_none _ _).mp hagg0
      refine ⟨?_, ?_, ?_, ?_, ?_, ?_, ?_, ?_, ?_, ?_⟩
      · rw [keysA_append, List.nodup_append]
        refine ⟨h1, by simp, ?_⟩
        intro x hx hx'
        simp [keysA] at hx'
        exact hka (hx' ▸ hx)
      · intro p hp
        rcases List.mem_append.mp hp with hp | hp
        · exact h2 p hp
        · simp at hp
          subst hp
          simp [keysA]
      · rw [keysA_append, List.nodup_append]
        refine ⟨h3, by simp, ?_⟩
        intro x hx hx'
        simp [keysA] at hx'
        exact hkn (hx' ▸ hx)
      · intro p hp
        rcases List.mem_append.mp hp with hp | hp
        · exact h4 p hp
        · simp at hp
          subst hp
          simp
      · intro p hp q hq
        rcases List.mem_append.mp hp with hp | hp
        · exact h5 p hp q hq
        · simp at hp
          subst hp
          simp at hq
          subst hq
          simp
      · intro p hp q hq rr hrr
        rcases List.mem_append.mp hp with hp | hp
        · exact h6 p hp q hq rr hrr
        · simp at hp
          subst hp
          simp at hq
          subst hq
          simp at hrr
          subst hrr
          exact ⟨rfl, rfl⟩
      · intro p hp q hq
        rcases List.mem_append.mp hp with hp | hp
        · rw [lookupA_append]
          rw [h7 p hp q hq]
        · simp at hp
          subst hp
          simp at hq
          subst hq
          rw [lookupA_append, hagg0]
          simp [lookupA]
      · intro e he
        rcases List.mem_append.mp he with he | he
        · have hold := h8 e he
          have hne : ¬(e.1.1 = r.input ∧ e.1.2 = r.output) := by
            rintro ⟨hh1, hh2⟩
            apply hkn
            have : e.1 = (r.input, r.output) := Prod.ext hh1 hh2
            exact this ▸ mem_keysA (show (e.1, e.2) ∈ _ from he)
          have := hbne e.1.1 e.1.2 hne
          rw [hshape] at this
          rw [this]
          exact hold
        · simp at he
          subst he
          rw [hshape] at hbself
          show bucketOf _ r.input r.output ≠ none
          rw [hbself]
          simp
      · simp only [hsb]
        simp
        omega
      · rw [hsa, hsb]
        omega
  | some inner =>
    have hpmem : (r.input, inner) ∈ c.product_rules := lookupA_mem hlp
    have hinnod : (keysA inner).Nodup := h2 _ hpmem
    cases hlb : lookupA inner r.output with
    | none =>
        have hbo : bucketOf c r.input r.output = none := by
          unfold bucketOf
          rw [hlp]
          exact hlb
        rw [hbo] at hagg0
        simp only [Option.map_none'] at hagg0
        have hshape : add_ProductRule c r = { c with
            product_rules :=
              setA c.product_rules r.input (inner ++ [(r.output, [r])]),
            product_netrules := c.product_netrules
              ++ [((r.input, r.output), ⟨r.input, r.output, 1⟩)],
            count_rules := c.count_rules + 1 } := by
          unfold add_ProductRule
          simp only [get_input_eq, get_output_eq, get_name_eq, hlp, hlb, hagg0]
          rw [setA_eq_append _ hlb]
        rw [hshape] at hsb hsa ⊢
        have hkb : r.output ∉ keysA inner := (lookupA_eq_none _ _).mp hlb
        have hkn : (r.input, r.output) ∉ keysA c.product_netrules :=
          (lookupA_eq_none _ _).mp hagg0
        have hinner' : ∀ p, p ∈ setA c.product_rules r.input
              (inner ++ [(r.output, [r])])
            ↔ (p = (r.input, inner ++ [(r.output, [r])])
               ∨ (p ∈ c.product_rules ∧ p.1 ≠ r.input)) := fun p => mem_setA_iff h1
        refine ⟨?_, ?_, ?_, ?_, ?_, ?_, ?_, ?_, ?_, ?_⟩
        · rw [keysA_setA_some _ hlp]
          exact h1
        · intro p hp
          rcases (hinner' p).mp hp with hp | ⟨hp, _⟩
          · subst hp
            rw [keysA_append, List.nodup_append]
            refine ⟨hinnod, by simp, ?_⟩
            intro x hx hx'
            simp [keysA] at hx'
            exact hkb (hx' ▸ hx)
          · exact h2 p hp
        · rw [keysA_append, List.nodup_append]
          refine ⟨h3, by simp, ?_⟩
          intro x hx hx'
          simp [keysA] at hx'
          exact hkn (hx' ▸ hx)
        · intro p hp
          rcases (hinner' p).mp hp with hp | ⟨hp, _⟩
          · subst hp
            simp
          · exact h4 p hp
        · intro p hp q hq
          rcases (hinner' p).mp hp with hp | ⟨hp, _⟩
          · subst hp
            rcases List.mem_append.mp hq with hq | hq
            · exact h5 _ hpmem q hq
            · simp at hq
              subst hq
              simp
          · exact h5 p hp q hq
        · intro p hp q hq rr hrr
          rcases (hinner' p).mp hp with hp | ⟨hp, _⟩
          · subst hp
            rcases List.mem_append.mp hq with hq | hq
            · exact h6 _ hpmem q hq rr hrr
            · simp at hq
              subst hq
              simp at hrr
              subst hrr
              exact ⟨rfl, rfl⟩
          · exact h6 p hp q hq rr hrr
        · intro p hp q hq
          rcases (hinner' p).mp hp with hp | ⟨hp, hpa⟩
          · subst hp
            rcases List.mem_append.mp hq with hq | hq
            · rw [lookupA_append]
              rw [h7 _ hpmem q hq]
            · simp at hq
              subst hq
              rw [lookupA_append, hagg0]
              simp [lookupA]
          · rw [lookupA_append]
            rw [h7 p hp q hq]
        · intro e he
          rcases List.mem_append.mp he with he | he
          · have hold := h8 e he
            have hne : ¬(e.1.1 = r.input ∧ e.1.2 = r.output) := by
              rintro ⟨hh1, hh2⟩
              apply hkn
              have : e.1 = (r.input, r.output) := Prod.ext hh1 hh2
              exact this ▸ mem_keysA (show (e.1, e.2) ∈ _ from he)
            have := hbne e.1.1 e.1.2 hne
            rw [hshape] at this
            rw [this]
            exact hold
          · simp at he
            subst he
            rw [hshape] at hbself
            show bucketOf _ r.input r.output ≠ none
            rw [hbself]
            simp
        · simp only [hsb]
          simp
          omega
        · rw [hsa, hsb]
          omega
    | some bucket =>
        have hqmem : (r.output, bucket) ∈ inner := lookupA_mem hlb
        have hbo : bucketOf c r.input r.output = some bucket := by
          unfold bucketOf
          rw [hlp]
          exact hlb
        rw [hbo] at hagg0
        simp only [Option.map_some'] at hagg0
        have hshape : add_ProductRule c r = { c with
            product_rules :=
              setA c.product_rules r.input
                (setA inner r.output (bucket ++ [r])),
            product_netrules :=
              setA c.product_netrules (r.input, r.output)
                ⟨r.input, r.output, bucket.length + 1⟩,
            count_rules := c.count_rules + 1 } := by
          unfold add_ProductRule
          simp only [get_input_eq, get_output_eq, get_name_eq, hlp, hlb, hagg0]
        rw [hshape] at hsb hsa ⊢
        have hinner' : ∀ p, p ∈ setA c.product_rules r.input
              (setA inner r.output (bucket ++ [r]))
            ↔ (p = (r.input, setA inner r.output (bucket ++ [r]))
               ∨ (p ∈ c.product_rules ∧ p.1 ≠ r.input)) := fun p => mem_setA_iff h1
        have hq' : ∀ q, q ∈ setA inner r.output (bucket ++ [r])
            ↔ (q = (r.output, bucket ++ [r])
               ∨ (q ∈ inner ∧ q.1 ≠ r.output)) := fun q => mem_setA_iff hinnod
        refine ⟨?_, ?_, ?_, ?_, ?_, ?_, ?_, ?_, ?_, ?_⟩
        · rw [keysA_setA_some _ hlp]
          exact h1
        · intro p hp
          rcases (hinner' p).mp hp with hp | ⟨hp, _⟩
          · subst hp
            rw [keysA_setA_some _ hlb]
            exact hinnod
          · exact h2 p hp
        · rw [keysA_setA_some _ hagg0]
          exact h3
        · intro p hp
          rcases (hinner' p).mp hp with hp | ⟨hp, _⟩
          · subst hp
            exact setA_ne_nil _ _ _
          · exact h4 p hp
        · intro p hp q hq
          rcases (hinner' p).mp hp with hp | ⟨hp, _⟩
          · subst hp
            rcases (hq' q).mp hq with hq | ⟨hq, _⟩
            · subst hq
              simp
            · exact h5 _ hpmem q hq
          · exact h5 p hp q hq
        · intro p hp q hq rr hrr
          rcases (hinner' p).mp hp with hp | ⟨hp, _⟩
          · subst hp
            rcases (hq' q).mp hq with hq | ⟨hq, _⟩
            · subst hq
              rcases List.mem_append.mp hrr with hrr | hrr
              · exact h6 _ hpmem _ hqmem rr hrr
              · simp at hrr
                subst hrr
                exact ⟨rfl, rfl⟩
            · exact h6 _ hpmem q hq rr hrr
          · exact h6 p hp q hq rr hrr
        · intro p hp q hq
          rcases (hinner' p).mp hp with hp | ⟨hp, hpa⟩
          · subst hp
            rcases (hq' q).mp hq with hq | ⟨hq, hqb⟩
            · subst hq
              rw [lookupA_setA_self]
              simp
            · have hkey : (r.input, q.1) ≠ (r.input, r.output) := by
                simp [hqb]
              rw [lookupA_setA_ne _ _ hkey]
              exact h7 _ hpmem q hq
          · have hkey : (p.1, q.1) ≠ (r.input, r.output) := by
              simp [hpa]
            rw [lookupA_setA_ne _ _ hkey]
            exact h7 p hp q hq
        · intro e he
          rcases (mem_setA_iff h3).mp he with he | ⟨he, hkey⟩
          · subst he
            rw [hshape] at hbself
            show bucketOf _ r.input r.output ≠ none
            rw [hbself]
            simp
          · have hold := h8 e he
            by_cases hh : e.1.1 = r.input ∧ e.1.2 = r.output
            · rw [hshape] at hbself
              rw [hh.1, hh.2, hbself]
              simp
            · have := hbne e.1.1 e.1.2 hh
              rw [hshape] at this
              rw [this]
              exact hold
        · simp only [hsb]
          simp
          omega
        · rw [hsa, hsb]
          omega

theorem remove_eq_of_lookups {c : Cell} {rx : ProductRule}
    {inner : List (Nat × List ProductRule)} {bucket : List ProductRule}
    {g : ProductNetRule} (step : Nat)
    (hpr : lookupA c.product_rules rx.input = some inner)
    (hin : lookupA inner rx.output = some bucket)
    (hrb : rx ∈ bucket)
    (hagg : lookupA c.product_netrules (rx.input, rx.output) = some g) :
    remove_ProductRule c rx step =
      (if bucket.erase rx = [] then
        Except.ok ({ c with
          product_rules :=
            if eraseA inner rx.output = [] then eraseA c.product_rules rx.input
            else setA c.product_rules rx.input (eraseA inner rx.output),
          product_netrules :=
            eraseA (setA c.product_netrules (rx.input, rx.output)
              { g with count := g.count - 1 }) (rx.input, rx.output),
          count_rules := c.count_rules - 1 },
          [((rx.input, rx.output), step)])
      else
        Except.ok ({ c with
          product_rules :=
            setA c.product_rules rx.input (setA inner rx.output (bucket.erase rx)),
          product_netrules :=
            setA c.product_netrules (rx.input, rx.output)
              { g with count := g.count - 1 },
          count_rules := c.count_rules - 1 },
          [])) := by
  unfold remove_ProductRule
  simp only [get_input_eq, get_output_eq, get_name_eq, hpr, hin, hagg]
  rw [if_pos hrb]

theorem remove_ok {c : Cell} {rx : ProductRule} (step : Nat) (hwf : WF c)
    (hmem : rx ∈ candidates c) :
    ∃ c' evs, remove_ProductRule c rx step = Except.ok (c', evs)
      ∧ sumBuckets c' + 1 = sumBuckets c
      ∧ sumAggs c' + 1 = sumAggs c
      ∧ c'.count_rules + 1 = c.count_rules
      ∧ c'.products = c.products
      ∧ c'.active_rule = c.active_rule
      ∧ c'.repro_type = c.repro_type
      ∧ c'.neighbors = c.neighbors := by
  obtain ⟨inner, bucket, hpr, hin, hrb⟩ := mem_candidates_wf hwf hmem
  have hagg := hwf.agg_eq rx.input rx.output
  have hbo : bucketOf c rx.input rx.output = some bucket := by
    unfold bucketOf
    rw [hpr]
    exact hin
  rw [hbo] at hagg
  simp only [Option.map_some'] at hagg
  have hcnt1 : 1 ≤ c.count_rules := by
    have hlen : 0 < (candidates c).length :=
      List.length_pos.mpr (List.ne_nil_of_mem hmem)
    have := length_candidates c
    have h9 := hwf.2.2.2.2.2.2.2.2.1
    omega
  have hblen : 0 < bucket.length := List.length_pos.mpr (List.ne_nil_of_mem hrb)
  have herase : (bucket.erase rx).length = bucket.length - 1 :=
    List.length_erase_of_mem hrb
  have hsin : sumBy (fun l => l.length) (eraseA inner rx.output) + bucket.length
      = sumBy (fun l => l.length) inner :=
    sumBy_eraseA_some _ hin
  rw [remove_eq_of_lookups step hpr hin hrb hagg]
  by_cases hb : bucket.erase rx = []
  · rw [if_pos hb]
    have hone : bucket.length = 1 := by
      rw [hb] at herase
      simp at herase
      omega
    have haggsum : sumBy (fun x => x.count)
          (eraseA (setA c.product_netrules (rx.input, rx.output)
            ⟨rx.input, rx.output, bucket.length - 1⟩) (rx.input, rx.output)) + 1
        = sumBy (fun x => x.count) c.product_netrules := by
      have hstep1 : sumBy (fun x => x.count)
            (setA c.product_netrules (rx.input, rx.output)
              ⟨rx.input, rx.output, bucket.length - 1⟩) + bucket.length
          = sumBy (fun x => x.count) c.product_netrules + (bucket.length - 1) := by
        simpa using sumBy_setA_some (fun x => x.count)
          (⟨rx.input, rx.output, bucket.length - 1⟩ : ProductNetRule) hagg
      have hstep2 : sumBy (fun x => x.count)
            (eraseA (setA c.product_netrules (rx.input, rx.output)
              ⟨rx.input, rx.output, bucket.length - 1⟩) (rx.input, rx.output))
            + (bucket.length - 1)
          = sumBy (fun x => x.count)
            (setA c.product_netrules (rx.input, rx.output)
              ⟨rx.input, rx.output, bucket.length - 1⟩) :=
        sumBy_eraseA_some (fun x => x.count)
          (lookupA_setA_self c.product_netrules (rx.input, rx.output)
            ⟨rx.input, rx.output, bucket.length - 1⟩)
      omega
    by_cases hi : eraseA inner rx.output = []
    · rw [if_pos hi]
      refine ⟨_, _, rfl, ?_, ?_, ?_, rfl, rfl, rfl, rfl⟩
      · have houter : sumBy (fun inn => sumBy (fun l => l.length) inn)
              (eraseA c.product_rules rx.input)
              + sumBy (fun l => l.length) inner
            = sumBy (fun inn => sumBy (fun l => l.length) inn) c.product_rules := by
          simpa using sumBy_eraseA_some
            (fun inn => sumBy (fun l => l.length) inn) hpr
        have hz : sumBy (fun l => l.length) (eraseA inner rx.output) = 0 := by
          rw [hi]
          rfl
        unfold sumBuckets
        dsimp only
        omega
      · unfold sumAggs
        dsimp only
        omega
      · dsimp only
        omega
    · rw [if_neg hi]
      refine ⟨_, _, rfl, ?_, ?_, ?_, rfl, rfl, rfl, rfl⟩
      · have houter : sumBy (fun inn => sumBy (fun l => l.length) inn)
              (setA c.product_rules rx.input (eraseA inner rx.output))
              + sumBy (fun l => l.length) inner
            = sumBy (fun inn => sumBy (fun l => l.length) inn) c.product_rules
              + sumBy (fun l => l.length) (eraseA inner rx.output) := by
          simpa using sumBy_setA_some
            (fun inn => sumBy (fun l => l.length) inn) (eraseA inner rx.output) hpr
        unfold sumBuckets
        dsimp only
        omega
      · unfold sumAggs
        dsimp only
        omega
      · dsimp only
        omega
  · rw [if_neg hb]
    refine ⟨_, _, rfl, ?_, ?_, ?_, rfl, rfl, rfl, rfl⟩
    · have hsin2 : sumBy (fun l => l.length) (setA inner rx.output (bucket.erase rx))
            + bucket.length
          = sumBy (fun l => l.length) inner + (bucket.erase rx).length := by
        simpa using sumBy_setA_some (fun l => l.length) (bucket.erase rx) hin
      have houter : sumBy (fun inn => sumBy (fun l => l.length) inn)
            (setA c.product_rules rx.input (setA inner rx.output (bucket.erase rx)))
            + sumBy (fun l => l.length) inner
          = sumBy (fun inn => sumBy (fun l => l.length) inn) c.product_rules
            + sumBy (fun l => l.length) (setA inner rx.output (bucket.erase rx)) := by
        simpa using sumBy_setA_some
          (fun inn => sumBy (fun l => l.length) inn)
          (setA inner rx.output (bucket.erase rx)) hpr
      unfold sumBuckets
      dsimp only
      omega
    · have hstep1 : sumBy (fun x => x.count)
            (setA c.product_netrules (rx.input, rx.output)
              ⟨rx.input, rx.output, bucket.length - 1⟩) + bucket.length
          = sumBy (fun x => x.count) c.product_netrules + (bucket.length - 1) := by
        simpa using sumBy_setA_some (fun x => x.count)
          (⟨rx.input, rx.output, bucket.length - 1⟩ : ProductNetRule) hagg
      unfold sumAggs
      dsimp only
      omega
    · dsimp only
      omega

theorem getD_set_self {α : Type} (l : List α) (j : Nat) (v d : α)
    (h : j < l.length) : (l.set j v).getD j d = v := by
  induction l generalizing j with
  | nil => simp at h
  | cons x t ih =>
      cases j with
      | zero => rfl
      | succ n =>
          have := ih n (by simpa using h)
          simpa using this

theorem getD_set_ne {α : Type} (l : List α) {j k : Nat} (v d : α)
    (h : k ≠ j) : (l.set j v).getD k d = l.getD k d := by
  induction l generalizing j k with
  | nil => simp
  | cons x t ih =>
      cases j with
      | zero =>
          cases k with
          | zero => exact absurd rfl h
          | succ m => simp
      | succ n =>
          cases k with
          | zero => simp
          | succ m =>
              have := ih (j := n) (k := m) (fun hh => h (by omega))
              simpa using this

theorem getD_mem_of_lt {α : Type} [Inhabited α] (l : List α) (j : Nat)
    (h : j < l.length) : l.getD j default ∈ l := by
  rw [List.getD_eq_getElem?_getD, List.getElem?_eq_getElem h]
  exact List.getElem_mem h

theorem cellsSum_set (l : List Cell) (j : Nat) (c' : Cell)
    (h : j < l.length) :
    ((l.set j c').map (fun c => (candidates c).length)).sum
      + (candidates (l.getD j default)).length
    = (l.map (fun c => (candidates c).length)).sum
      + (candidates c').length := by
  induction l generalizing j with
  | nil => simp at h
  | cons x t ih =>
      cases j with
      | zero =>
          simp
          omega
      | succ n =>
          have := ih n (by simpa using h)
          simp at this ⊢
          omega

theorem mem_allRules_of {net : Net} {j : Nat} {rx : ProductRule}
    (hj : j < net.cells.length)
    (hr : rx ∈ candidates (net.cells.getD j default)) :
    (j, rx) ∈ allRules net := by
  unfold allRules
  rw [List.mem_flatMap]
  refine ⟨(j, net.cells.getD j default), ?_, ?_⟩
  · rw [List.mk_mem_enum_iff_getElem?, List.getElem?_eq_getElem hj]
    rw [List.getD_eq_getElem?_getD, List.getElem?_eq_getElem hj]
    rfl
  · simp only [List.mem_map]
    exact ⟨rx, hr, rfl⟩

theorem allRules_mem_inv {net : Net} {j : Nat} {rx : ProductRule}
    (h : (j, rx) ∈ allRules net) :
    j < net.cells.length ∧ rx ∈ candidates (net.cells.getD j default) := by
  unfold allRules at h
  rw [List.mem_flatMap] at h
  obtain ⟨jc, hjc, hmem⟩ := h
  rw [List.mem_map] at hmem
  obtain ⟨r0, hr0, heq⟩ := hmem
  rw [List.mem_enum_iff_getElem?] at hjc
  obtain ⟨hlt, hget⟩ := List.getElem?_eq_some_iff.mp hjc
  cases heq
  refine ⟨hlt, ?_⟩
  rw [List.getD_eq_getElem?_getD, List.getElem?_eq_getElem hlt, hget]
  exact hr0

/-- The outcome of `reproduce_active_rule` on a well-formed network: the
call succeeds, conserves the network-wide rule-instance total (the add and
the extinction draw cancel), and touches nothing but rule bookkeeping —
in particular no inventory, active-rule slot, policy or counter outside
the rule structures changes, and every cell other than the reproducing
one can only have lost at most one rule instance to the extinction. -/
theorem reproduce_ok {net : Net} {j : Nat} (newId iExt : Nat)
    {r : ProductRule}
    (hj : j < net.cells.length)
    (hact : (net.cells.getD j default).active_rule = some r)
    (hwf : ∀ c ∈ net.cells, WF c) :
    ∃ net', reproduce_active_rule net j newId iExt = Except.ok net'
      ∧ netTotal net' = netTotal net
      ∧ net'.cells.length = net.cells.length
      ∧ net'.master_count = net.master_count
      ∧ net'.urn_returns = net.urn_returns
      ∧ (∀ k, (net'.cells.getD k default).products
            = (net.cells.getD k default).products)
      ∧ (∀ k, (net'.cells.getD k default).active_rule
            = (net.cells.getD k default).active_rule)
      ∧ (∀ k, (net'.cells.getD k default).repro_type
            = (net.cells.getD k default).repro_type)
      ∧ (∀ k, k ≠ j →
           (candidates (net'.cells.getD k default)).length
             ≤ (candidates (net.cells.getD k default)).length
           ∧ (candidates (net.cells.getD k default)).length
             ≤ (candidates (net'.cells.getD k default)).length + 1) := by
  set c := net.cells.getD j default with hc
  set rnew : ProductRule := ⟨r.get_input, r.get_output, newId⟩ with hrnew
  set c1 := add_ProductRule c rnew with hc1
  have hkey : reproduce_active_rule net j newId iExt
      = remove_random_rule
          { net with cells := net.cells.set j c1,
                     last_added_rule := net.master_count } iExt := by
    unfold reproduce_active_rule
    rw [hact]
  rw [hkey]
  set mid : Net := { net with cells := net.cells.set j c1, last_added_rule := net.master_count } with hmid
  have hmidlen : mid.cells.length = net.cells.length := by
    simp [hmid]
  have hwfc : WF c := hwf c (getD_mem_of_lt _ _ hj)
  have hwfc1 : WF c1 := WF_add rnew hwfc
  have hmemnew : rnew ∈ candidates c1 := mem_candidates_add c rnew
  have hgetj : mid.cells.getD j default = c1 := by
    simp only [hmid]
    exact getD_set_self _ _ _ _ hj
  have hmem : (j, rnew) ∈ allRules mid :=
    mem_allRules_of (by omega) (by rw [hgetj]; exact hmemnew)
  have hne : allRules mid ≠ [] := List.ne_nil_of_mem hmem
  obtain ⟨jr, hs, hjr⟩ := sample_ne_nil (allRules mid) iExt hne
  obtain ⟨jx, rx⟩ := jr
  obtain ⟨hjx, hrx⟩ := allRules_mem_inv hjr
  have hwfjx : WF (mid.cells.getD jx default) := by
    by_cases hxx : jx = j
    · rw [hxx, hgetj]
      exact hwfc1
    · have : mid.cells.getD jx default = net.cells.getD jx default := by
        simp only [hmid]
        exact getD_set_ne _ _ _ hxx
      rw [this]
      exact hwf _ (getD_mem_of_lt _ _ (by omega))
  obtain ⟨c2, evs, hrem, hsb2, hsa2, hcnt2, hprod2, hact2, hrep2, hnbr2⟩ :=
    remove_ok mid.master_count hwfjx hrx
  unfold remove_random_rule
  rw [hs]
  dsimp only
  rw [hrem]
  refine ⟨_, rfl, ?_, ?_, ?_, ?_, ?_, ?_, ?_, ?_⟩
  · have hstep2 : ((mid.cells.set jx c2).map (fun c => (candidates c).length)).sum
          + (candidates (mid.cells.getD jx default)).length
        = (mid.cells.map (fun c => (candidates c).length)).sum
          + (candidates c2).length := cellsSum_set _ _ _ (by omega)
    have hstep1 : ((net.cells.set j c1).map (fun c => (candidates c).length)).sum
          + (candidates c).length
        = (net.cells.map (fun c => (candidates c).length)).sum
          + (candidates c1).length := by
      rw [hc]
      exact cellsSum_set _ _ _ hj
    have hlen1 : (candidates c1).length = (candidates c).length + 1 := by
      rw [hc1, length_candidates, length_candidates, sumBuckets_add]
    have hlenrm : (candidates c2).length + 1
        = (candidates (mid.cells.getD jx default)).length := by
      rw [length_candidates, length_candidates]
      exact hsb2
    unfold netTotal
    dsimp only
    simp only [hmid] at hstep2 hlenrm ⊢
    omega
  · simp [hmid]
  · simp [hmid]
  · simp [hmid]
  · intro k
    by_cases hkx : k = jx
    · subst hkx
      by_cases hkj : k = j
      · subst hkj
        simp only [hmid]
        rw [getD_set_self _ _ _ _ (by simpa [hmid] using hjx)]
        rw [hprod2, hgetj, hc1, products_add_ProductRule]
      · simp only [hmid]
        rw [getD_set_self _ _ _ _ (by simpa [hmid] using hjx)]
        rw [hprod2]
        simp only [hmid]
        rw [getD_set_ne _ _ _ hkj]
    · by_cases hkj : k = j
      · subst hkj
        simp only [hmid]
        rw [getD_set_ne _ _ _ hkx, getD_set_self _ _ _ _ hj, hc1,
            products_add_ProductRule]
      · simp only [hmid]
        rw [getD_set_ne _ _ _ hkx, getD_set_ne _ _ _ hkj]
  · intro k
    by_cases hkx : k = jx
    · subst hkx
      by_cases hkj : k = j
      · subst hkj
        simp only [hmid]
        rw [getD_set_self _ _ _ _ (by simpa [hmid] using hjx)]
        rw [hact2, hgetj, hc1, active_add_ProductRule]
      · simp only [hmid]
        rw [getD_set_self _ _ _ _ (by simpa [hmid] using hjx)]
        rw [hact2]
        simp only [hmid]
        rw [getD_set_ne _ _ _ hkj]
    · by_cases hkj : k = j
      · subst hkj
        simp only [hmid]
        rw [getD_set_ne _ _ _ hkx, getD_set_self _ _ _ _ hj, hc1,
            active_add_ProductRule]
      · simp only [hmid]
        rw [getD_set_ne _ _ _ hkx, getD_set_ne _ _ _ hkj]
  · intro k
    by_cases hkx : k = jx
    · subst hkx
      by_cases hkj : k = j
      · subst hkj
        simp only [hmid]
        rw [getD_set_self _ _ _ _ (by simpa [hmid] using hjx)]
        rw [hrep2, hgetj]
        rfl
      · simp only [hmid]
        rw [getD_set_self _ _ _ _ (by simpa [hmid] using hjx)]
        rw [hrep2]
        simp only [hmid]
        rw [getD_set_ne _ _ _ hkj]
    · by_cases hkj : k = j
      · subst hkj
        simp only [hmid]
        rw [getD_set_ne _ _ _ hkx, getD_set_self _ _ _ _ hj]
        rfl
      · simp only [hmid]
        rw [getD_set_ne _ _ _ hkx, getD_set_ne _ _ _ hkj]
  · intro k hkj
    have hlenrm : (candidates c2).length + 1
        = (candidates (mid.cells.getD jx default)).length := by
      rw [length_candidates, length_candidates]
      exact hsb2
    by_cases hkx : k = jx
    · subst hkx
      have hmidk : mid.cells.getD k default = net.cells.getD k default := by
        simp only [hmid]
        exact getD_set_ne _ _ _ hkj
      simp only [hmid]
      rw [getD_set_self _ _ _ _ (by simpa [hmid] using hjx)]
      rw [hmidk] at hlenrm
      omega
    · have : (mid.cells.set jx c2).getD k default = net.cells.getD k default := by
        rw [getD_set_ne _ _ _ hkx]
        simp only [hmid]
        exact getD_set_ne _ _ _ hkj
      simp only [hmid] at this
      simp only [hmid]
      rw [this]
      omega

theorem candidates_withActive (c : Cell) (o : Option ProductRule) :
    candidates { c with active_rule := o } = candidates c := rfl

theorem candidates_add_Product (c : Cell) (p : Product) :
    candidates (add_Product c p) = candidates c := by
  unfold add_Product
  cases lookupA c.products p.get_type <;> rfl

theorem active_add_Product (c : Cell) (p : Product) :
    (add_Product c p).active_rule = c.active_rule := by
  unfold add_Product
  cases lookupA c.products p.get_type <;> rfl

theorem tokenStack_add_self (c : Cell) (p : Product) :
    tokenStack (add_Product c p) p.ptype = tokenStack c p.ptype ++ [p] := by
  unfold add_Product tokenStack
  simp only [get_type_eq]
  cases h : lookupA c.products p.ptype with
  | none =>
      dsimp only
      rw [lookupA_setA_self]
      rfl
  | some stack =>
      dsimp only
      rw [lookupA_setA_self]
      rfl

theorem setA_append_none {κ β : Type} [DecidableEq κ] {m : List (κ × β)}
    {k : κ} (v w : β) (h : lookupA m k = none) :
    setA (m ++ [(k, v)]) k w = m ++ [(k, w)] := by
  induction m with
  | nil => simp [setA]
  | cons p t ih =>
      obtain ⟨a, b⟩ := p
      by_cases hk : a = k
      · rw [lookupA, if_pos hk] at h
        cases h
      · rw [lookupA, if_neg hk] at h
        simp [setA, hk, ih h]

theorem setActive_cells_len (net : Net) (j : Nat) (o : Option ProductRule) :
    (setActive net j o).cells.length = net.cells.length := by
  unfold setActive
  simp

theorem store_cells_len (net : Net) (j : Nat) (p : Product) :
    (storeProduct net j p).cells.length = net.cells.length := by
  unfold storeProduct
  simp

theorem getD_setActive_self (net : Net) (j : Nat) (o : Option ProductRule)
    (h : j < net.cells.length) :
    (setActive net j o).cells.getD j default
      = { net.cells.getD j default with active_rule := o } := by
  unfold setActive
  exact getD_set_self _ _ _ _ h

theorem getD_setActive_ne (net : Net) (j k : Nat) (o : Option ProductRule)
    (h : k ≠ j) :
    (setActive net j o).cells.getD k default = net.cells.getD k default := by
  unfold setActive
  exact getD_set_ne _ _ _ h

theorem getD_store_self (net : Net) (j : Nat) (p : Product)
    (h : j < net.cells.length) :
    (storeProduct net j p).cells.getD j default
      = add_Product (net.cells.getD j default) p := by
  unfold storeProduct
  exact getD_set_self _ _ _ _ h

theorem getD_store_ne (net : Net) (j k : Nat) (p : Product) (h : k ≠ j) :
    (storeProduct net j p).cells.getD k default = net.cells.getD k default := by
  unfold storeProduct
  exact getD_set_ne _ _ _ h

theorem netTotal_set_same (net : Net) (k : Nat) (c' : Cell)
    (hk : k < net.cells.length)
    (hlen : (candidates c').length
      = (candidates (net.cells.getD k default)).length) :
    netTotal { net with cells := net.cells.set k c' } = netTotal net := by
  have := cellsSum_set net.cells k c' hk
  unfold netTotal
  dsimp only
  omega

theorem netTotal_setActive (net : Net) (j : Nat) (o : Option ProductRule)
    (h : j < net.cells.length) :
    netTotal (setActive net j o) = netTotal net := by
  unfold setActive
  exact netTotal_set_same net j _ h (by rw [candidates_withActive])

theorem netTotal_store (net : Net) (j : Nat) (p : Product)
    (h : j < net.cells.length) :
    netTotal (storeProduct net j p) = netTotal net := by
  unfold storeProduct
  exact netTotal_set_same net j _ h (by rw [candidates_add_Product])

theorem setActive_urn (net : Net) (j : Nat) (o : Option ProductRule) :
    (setActive net j o).urn_returns = net.urn_returns := rfl

theorem store_urn (net : Net) (j : Nat) (p : Product) :
    (storeProduct net j p).urn_returns = net.urn_returns := rfl

theorem flatMap_vals_ne_nil {α : Type} (m : List (Nat × List α))
    (hm : m ≠ []) (hv : ∀ q ∈ m, q.2 ≠ []) :
    m.flatMap (fun q => q.2) ≠ [] := by
  cases m with
  | nil => exact absurd rfl hm
  | cons q t =>
      have hq2 := hv q (List.mem_cons_self q t)
      cases hq : q.2 with
      | nil => exact absurd hq hq2
      | cons x xs => simp [List.flatMap_cons, hq]

/-- Claim C6: when the recipient has no rule accepting the token's current
type, `receive_product` only advances the global step counter and hands
the token back to the urn with its type unmodified; the cells — and in
particular the recipient's token inventory, rule index, aggregate index,
rule counter and active rule — are untouched. -/
theorem C6_rejection_path (net : Net) (recv send : Nat) (p : Product)
    (iRule iExt newId : Nat)
    (hno : has_rule (net.cells.getD recv default) p.ptype = false) :
    receive_product net recv send p iRule iExt newId
      = Except.ok ({ net with
          master_count := net.master_count + 1,
          urn_returns := net.urn_returns ++ [p] }) := by
  unfold receive_product
  dsimp only
  simp only [get_type_eq]
  rw [hno]
  rfl

/-- Witness for claim C6 at a concrete network: the recipient owns no rule
with input 9, so a type-9 token is rejected and returned to the urn. -/
theorem C6_witness :
    receive_product net5 1 0 ⟨9, 50⟩ 0 0 0
      = Except.ok ({ net5 with
          master_count := net5.master_count + 1,
          urn_returns := net5.urn_returns ++ [⟨9, 50⟩] }) :=
  C6_rejection_path net5 1 0 ⟨9, 50⟩ 0 0 0 (by decide)

/-- Claim C8 (counterexample): for a node with the non-empty neighbor list
[1, 2] and the exclusion argument 3, which is absent from the list, the
call does not sample over the full neighbor set — it raises `TypeError`. -/
theorem C8_counterexample :
    cW8.neighbors ≠ []
    ∧ (3 : Nat) ∉ cW8.neighbors
    ∧ get_random_neighbor cW8 (some 3) 0 = Except.error PyError.typeError
    ∧ isOkE (get_random_neighbor cW8 (some 3) 0) = false := by
  refine ⟨by decide, by decide, rfl, rfl⟩

/-- Claim C8 (amended): with an exclusion argument that is present in the
neighbor list, `get_random_neighbor` samples uniformly from the list with
that node's first occurrence removed; with an exclusion argument that is
absent from the list it raises `TypeError` instead of sampling. -/
theorem C8_exclusion (c : Cell) (w : Nat) :
    (w ∈ c.neighbors →
      ∀ i, i < (c.neighbors.erase w).length →
        get_random_neighbor c (some w) i
          = Except.ok ((c.neighbors.erase w).getD i 0))
    ∧ (w ∉ c.neighbors →
        ∀ i, get_random_neighbor c (some w) i
          = Except.error PyError.typeError) := by
  constructor
  · intro hw i hi
    unfold get_random_neighbor
    dsimp only
    rw [if_pos hw, sample_lt _ _ 0 hi]
  · intro hw i
    unfold get_random_neighbor
    dsimp only
    rw [if_neg hw]

/-- Witness for the amended claim C8: on neighbors [1, 2], excluding 1 and
drawing index 0 yields neighbor 2, and excluding the non-neighbor 5
raises `TypeError`. -/
theorem C8_witness :
    get_random_neighbor cW8 (some 1) 0 = Except.ok 2
    ∧ get_random_neighbor cW8 (some 5) 3 = Except.error PyError.typeError :=
  ⟨by
    rw [(C8_exclusion cW8 1).1 (by decide) 0 (by decide)]
    rfl,
   (C8_exclusion cW8 5).2 (by decide) 3⟩

/-- Claim C9 (counterexample): on a cell with an empty inventory, adding a
type-5 token and removing type 5 returns the token but leaves the
inventory holding an empty stack under key 5, so the inventory is not
equal to its state before the pair of calls. -/
theorem C9_counterexample :
    (remove_Product (add_Product cEmpty p9) 5).1 = some p9
    ∧ (remove_Product (add_Product cEmpty p9) 5).2.products ≠ cEmpty.products
    ∧ (remove_Product (add_Product cEmpty p9) 5).2 ≠ cEmpty := by
  refine ⟨by decide, by decide, by decide⟩

/-- Claim C9 (amended): adding a token and then removing its type returns
exactly that token (the most recently stored one of its type) and restores
every type's stack to its prior value; if the token's type key already
existed the cell is exactly its prior value, and if it was absent the only
difference is a leftover empty stack under that key.  `remove_Product`
never raises: an absent key or an empty stack yields `none` and leaves the
cell unchanged. -/
theorem C9_stack_roundtrip (c : Cell) (p : Product) (c' : Cell) (t : Nat) :
    (remove_Product (add_Product c p) p.ptype).1 = some p
    ∧ (∀ u, tokenStack (remove_Product (add_Product c p) p.ptype).2 u
        = tokenStack c u)
    ∧ (lookupA c.products p.ptype ≠ none →
        (remove_Product (add_Product c p) p.ptype).2 = c)
    ∧ (lookupA c.products p.ptype = none →
        (remove_Product (add_Product c p) p.ptype).2.products
          = c.products ++ [(p.ptype, [])])
    ∧ ((lookupA c'.products t = none ∨ lookupA c'.products t = some []) →
        remove_Product c' t = (none, c')) := by
  have hlast : ∀ (c'' : Cell) (u : Nat), c''.products = c.products →
      tokenStack c'' u = tokenStack c u := by
    intro c'' u h
    unfold tokenStack
    rw [h]
  cases hlk : lookupA c.products p.ptype with
  | some stack =>
      have hadd : add_Product c p
          = { c with products := setA c.products p.ptype (stack ++ [p]) } := by
        unfold add_Product
        simp only [get_type_eq, hlk]
      have hrm : remove_Product (add_Product c p) p.ptype = (some p, c) := by
        rw [hadd]
        unfold remove_Product
        dsimp only
        rw [lookupA_setA_self]
        dsimp only
        rw [if_neg (by simp : ¬(stack ++ [p] = []))]
        rw [List.getLast?_concat, List.dropLast_concat, setA_setA,
            setA_self_eq hlk]
      rw [hrm]
      refine ⟨rfl, fun u => rfl, fun _ => rfl,
        fun h => Option.noConfusion h, ?_⟩
      · intro h
        rcases h with h | h
        · unfold remove_Product
          rw [h]
        · unfold remove_Product
          rw [h]
          rfl
  | none =>
      have hadd : add_Product c p
          = { c with products := c.products ++ [(p.ptype, [p])] } := by
        unfold add_Product
        simp only [get_type_eq, hlk]
        rw [setA_eq_append _ hlk]
      have hlk2 : lookupA (c.products ++ [(p.ptype, [p])]) p.ptype
          = some [p] := by
        rw [lookupA_append, hlk]
        simp [lookupA]
      have hrm : remove_Product (add_Product c p) p.ptype
          = (some p, { c with products := c.products ++ [(p.ptype, [])] }) := by
        rw [hadd]
        unfold remove_Product
        dsimp only
        rw [hlk2]
        dsimp only
        rw [if_neg (by simp : ¬(([p] : List Product) = []))]
        have hdl : ([p] : List Product).dropLast = [] := rfl
        rw [hdl, setA_append_none _ _ hlk]
        rfl
      rw [hrm]
      refine ⟨rfl, ?_, fun h => absurd rfl h, fun _ => rfl, ?_⟩
      · intro u
        unfold tokenStack
        dsimp only
        by_cases hu : u = p.ptype
        · subst hu
          rw [lookupA_append, hlk]
          simp [lookupA]
        · rw [lookupA_append]
          cases hlu : lookupA c.products u with
          | some v => rfl
          | none =>
              dsimp only
              rw [lookupA]
              rw [if_neg (fun hh => hu hh.symm)]
              rfl
      · intro h
        rcases h with h | h
        · unfold remove_Product
          rw [h]
        · unfold remove_Product
          rw [h]
          rfl

/-- Witness for the amended claim C9 at concrete inputs: on a cell already
storing a type-5 token, the add-then-remove pair returns the new token and
exactly restores the cell, and removing from an empty stack or an absent
key returns `none`. -/
theorem C9_witness :
    (remove_Product (add_Product cW9 ⟨5, 8⟩) 5).1 = some ⟨5, 8⟩
    ∧ (remove_Product (add_Product cW9 ⟨5, 8⟩) 5).2 = cW9
    ∧ remove_Product cW9 3 = (none, cW9) := by
  have h := C9_stack_roundtrip cW9 ⟨5, 8⟩ cW9 3
  exact ⟨h.1, h.2.2.1 (by decide), h.2.2.2.2 (Or.inl (by decide))⟩

/-- Claim C10: `set_active_rule` sets the active rule exactly for rule
instances present in the cell's own (input, output) bucket; because the
failure branch evaluates the undefined name `InstanceError`, a failing
membership check raises `NameError`, and an absent input or output key
raises `KeyError` before the membership check is reached. -/
theorem C10_set_active_rule (c : Cell) (r : ProductRule)
    (inner : List (Nat × List ProductRule)) (bucket : List ProductRule) :
    (lookupA c.product_rules r.input = some inner →
      lookupA inner r.output = some bucket →
      ((r ∈ bucket →
          set_active_rule c r = Except.ok { c with active_rule := some r })
       ∧ (r ∉ bucket →
          set_active_rule c r = Except.error PyError.nameError)))
    ∧ (lookupA c.product_rules r.input = none →
        set_active_rule c r = Except.error PyError.keyError)
    ∧ (lookupA c.product_rules r.input = some inner →
       lookupA inner r.output = none →
        set_active_rule c r = Except.error PyError.keyError) := by
  unfold set_active_rule
  simp only [get_input_eq, get_output_eq]
  refine ⟨?_, ?_, ?_⟩
  · intro h1 h2
    simp only [h1, h2]
    exact ⟨fun hm => by rw [if_pos hm], fun hm => by rw [if_neg hm]⟩
  · intro h1
    simp only [h1]
  · intro h1 h2
    simp only [h1, h2]

/-- Witness for claim C10 at a concrete cell: its own instance is accepted,
a foreign instance of an indexed pair hits the `NameError` branch, and an
unindexed input key raises `KeyError`. -/
theorem C10_witness :
    set_active_rule cEx1 r1 = Except.ok { cEx1 with active_rule := some r1 }
    ∧ set_active_rule cEx1 ⟨1, 2, 99⟩ = Except.error PyError.nameError
    ∧ set_active_rule cEx1 ⟨7, 2, 0⟩ = Except.error PyError.keyError :=
  ⟨((C10_set_active_rule cEx1 r1 [(2, [r1])] [r1]).1 rfl rfl).1 (by decide),
   ((C10_set_active_rule cEx1 ⟨1, 2, 99⟩ [(2, [r1])] [r1]).1 rfl rfl).2
     (by decide),
   (C10_set_active_rule cEx1 ⟨7, 2, 0⟩ [(2, [r1])] [r1]).2.1 rfl⟩

theorem countP_flatMap_zero_any {γ α : Type} (p : α → Bool) (l : List γ)
    (g : γ → List α) (h : ∀ x ∈ l, (g x).countP p = 0) :
    (l.flatMap g).countP p = 0 := by
  induction l with
  | nil => simp
  | cons q t ih =>
      rw [List.flatMap_cons, List.countP_append,
          h q (List.mem_cons_self q t),
          ih (fun x hx => h x (List.mem_cons_of_mem q hx))]

theorem countP_flatMap_keyed {κ β α : Type} [DecidableEq κ] (p : α → Bool)
    (m : List (κ × β)) (g : κ × β → List α) (k : κ)
    (hnod : (keysA m).Nodup)
    (hzero : ∀ q ∈ m, q.1 ≠ k → (g q).countP p = 0) :
    (m.flatMap g).countP p
      = ((lookupA m k).map (fun v => (g (k, v)).countP p)).getD 0 := by
  induction m with
  | nil => simp [lookupA]
  | cons q t ih =>
      obtain ⟨a, b⟩ := q
      rw [keysA_cons, List.nodup_cons] at hnod
      rw [List.flatMap_cons, List.countP_append]
      by_cases hk : a = k
      · subst hk
        rw [lookupA, if_pos rfl]
        have hz : ∀ x ∈ t, (g x).countP p = 0 := by
          intro x hx
          by_cases hxk : x.1 = a
          · have hmem : x.1 ∈ keysA t := List.mem_map_of_mem Prod.fst hx
            exact absurd (hxk ▸ hmem) hnod.1
          · exact hzero x (List.mem_cons_of_mem _ hx) hxk
        rw [countP_flatMap_zero_any p t g hz]
        simp
      · rw [lookupA, if_neg hk, hzero (a, b) (List.mem_cons_self _ t) hk,
            ih hnod.2 (fun x hx hxk => hzero x (List.mem_cons_of_mem _ hx) hxk)]
        omega

theorem lookupA_mapval {κ β : Type} [DecidableEq κ] (m : List (κ × β))
    (f : κ → β → β) (k : κ) :
    lookupA (m.map (fun q => (q.1, f q.1 q.2))) k
      = (lookupA m k).map (f k) := by
  induction m with
  | nil => rfl
  | cons q t ih =>
      obtain ⟨a, b⟩ := q
      by_cases hk : a = k
      · subst hk
        simp [lookupA]
      · simp [lookupA, hk, ih]

theorem keysA_mapval {κ β : Type} (m : List (κ × β)) (f : κ → β → β) :
    keysA (m.map (fun q => (q.1, f q.1 q.2))) = keysA m := by
  induction m with
  | nil => rfl
  | cons q t ih => simp [keysA] at ih ⊢

theorem flatMap_eq_nil_of {γ α : Type} (l : List γ) (g : γ → List α)
    (h : ∀ x ∈ l, g x = []) : l.flatMap g = [] := by
  induction l with
  | nil => rfl
  | cons q t ih =>
      rw [List.flatMap_cons, h q (List.mem_cons_self q t),
          ih (fun x hx => h x (List.mem_cons_of_mem q hx))]
      rfl

/-- Claim C2: on a well-formed node, the invariant that the total-rule
counter equals the sum of the lengths of all (input, output) buckets of
the rule index and equals the sum of the per-type aggregate counts is
preserved by every `add_ProductRule` call and by every
`remove_ProductRule` call satisfying its precondition (the removed
instance is one of the node's own). -/
theorem C2_index_aggregate_consistency (c : Cell) (r r' : ProductRule)
    (step : Nat) (hwf : WF c) (hmem : r' ∈ candidates c) :
    (c.count_rules = sumBuckets c ∧ c.count_rules = sumAggs c)
    ∧ ((add_ProductRule c r).count_rules = sumBuckets (add_ProductRule c r)
       ∧ (add_ProductRule c r).count_rules = sumAggs (add_ProductRule c r))
    ∧ (∃ c' evs, remove_ProductRule c r' step = Except.ok (c', evs)
        ∧ c'.count_rules = sumBuckets c'
        ∧ c'.count_rules = sumAggs c') := by
  have h9 := hwf.2.2.2.2.2.2.2.2.1
  have h10 := hwf.2.2.2.2.2.2.2.2.2
  refine ⟨⟨h9, by rw [h9, h10]⟩, ?_, ?_⟩
  · rw [count_rules_add, sumBuckets_add, sumAggs_add]
    exact ⟨by omega, by omega⟩
  · obtain ⟨c', evs, hok, hsb, hsa, hcnt, _⟩ := remove_ok step hwf hmem
    exact ⟨c', evs, hok, by omega, by omega⟩

/-- Witness for claim C2 at a concrete well-formed cell: the invariant
holds before, after an addition, and after a removal. -/
theorem C2_witness :
    (cEx1.count_rules = sumBuckets cEx1 ∧ cEx1.count_rules = sumAggs cEx1)
    ∧ ((add_ProductRule cEx1 rR).count_rules
         = sumBuckets (add_ProductRule cEx1 rR)
       ∧ (add_ProductRule cEx1 rR).count_rules
         = sumAggs (add_ProductRule cEx1 rR))
    ∧ (∃ c' evs, remove_ProductRule cEx1 r1 5 = Except.ok (c', evs)
        ∧ c'.count_rules = sumBuckets c'
        ∧ c'.count_rules = sumAggs c') :=
  C2_index_aggregate_consistency cEx1 rR r1 5 (by decide) (by decide)

/-- Claim C3: removing a rule instance held by the node: if it was the
last instance of its (input, output) pair, the output leaf is deleted,
the input level is deleted exactly when it became empty, the aggregate
entry is removed from the node's aggregate index, and exactly one
registry retirement event is emitted carrying the supplied current global
step count; if other instances of the pair remain, the leaf and the
aggregate stay (the aggregate merely decremented) and no retirement call
is made. -/
theorem C3_extinction_cleanup (c : Cell) (r : ProductRule) (step : Nat)
    (inner : List (Nat × List ProductRule)) (bucket : List ProductRule)
    (hwf : WF c)
    (hpr : lookupA c.product_rules r.input = some inner)
    (hin : lookupA inner r.output = some bucket)
    (hrb : r ∈ bucket) :
    ∃ c' evs, remove_ProductRule c r step = Except.ok (c', evs)
      ∧ (bucket.erase r = [] →
           bucketOf c' r.input r.output = none
           ∧ (eraseA inner r.output = [] →
               lookupA c'.product_rules r.input = none)
           ∧ (eraseA inner r.output ≠ [] →
               lookupA c'.product_rules r.input = some (eraseA inner r.output))
           ∧ lookupA c'.product_netrules (r.input, r.output) = none
           ∧ evs = [((r.input, r.output), step)])
      ∧ (bucket.erase r ≠ [] →
           bucketOf c' r.input r.output = some (bucket.erase r)
           ∧ lookupA c'.product_netrules (r.input, r.output)
               = some ⟨r.input, r.output, bucket.length - 1⟩
           ∧ evs = []) := by
  have hagg := hwf.agg_eq r.input r.output
  have hbo : bucketOf c r.input r.output = some bucket := by
    unfold bucketOf
    rw [hpr]
    exact hin
  rw [hbo] at hagg
  simp only [Option.map_some'] at hagg
  obtain ⟨h1, h2, h3, h4, h5, h6, h7, h8, h9, h10⟩ := hwf
  have hinnod : (keysA inner).Nodup := h2 _ (lookupA_mem hpr)
  rw [remove_eq_of_lookups step hpr hin hrb hagg]
  by_cases hb : bucket.erase r = []
  · rw [if_pos hb]
    refine ⟨_, _, rfl, ?_, ?_⟩
    · intro _
      refine ⟨?_, ?_, ?_, ?_, rfl⟩
      · unfold bucketOf
        dsimp only
        by_cases hi : eraseA inner r.output = []
        · rw [if_pos hi, lookupA_eraseA_self h1]
        · rw [if_neg hi, lookupA_setA_self]
          dsimp only
          rw [lookupA_eraseA_self hinnod]
      · intro hi
        dsimp only
        rw [if_pos hi, lookupA_eraseA_self h1]
      · intro hi
        dsimp only
        rw [if_neg hi, lookupA_setA_self]
      · dsimp only
        have hkeys : (keysA (setA c.product_netrules (r.input, r.output)
            ({ input := r.input, output := r.output,
               count := bucket.length } : ProductNetRule))).Nodup := by
          rw [keysA_setA_some _ hagg]
          exact h3
        exact lookupA_eraseA_self
          (by rw [keysA_setA_some _ hagg]; exact h3)
    · intro hb'
      exact absurd hb hb'
  · rw [if_neg hb]
    refine ⟨_, _, rfl, ?_, ?_⟩
    · intro hb'
      exact absurd hb' hb
    · intro _
      refine ⟨?_, ?_, rfl⟩
      · unfold bucketOf
        dsimp only
        rw [lookupA_setA_self]
        dsimp only
        rw [lookupA_setA_self]
      · dsimp only
        rw [lookupA_setA_self]

/-- Witness for claim C3: removing the only (1, 2) instance of a concrete
cell deletes the leaf, the input level, and the aggregate, and emits
exactly one retirement event carrying the given step count. -/
theorem C3_witness :
    ∃ c' evs, remove_ProductRule cEx1 r1 5 = Except.ok (c', evs)
      ∧ bucketOf c' 1 2 = none
      ∧ lookupA c'.product_rules 1 = none
      ∧ lookupA c'.product_netrules (1, 2) = none
      ∧ evs = [((1, 2), 5)] := by
  obtain ⟨c', evs, hok, hemp, _⟩ :=
    C3_extinction_cleanup cEx1 r1 5 [(2, [r1])] [r1] (by decide)
      rfl rfl (by decide)
  obtain ⟨hb1, hb2, _, hb4, hb5⟩ := hemp (by decide)
  exact ⟨c', evs, hok, hb1, hb2 (by decide), hb4, hb5⟩

theorem countP_candidates_eq (c : Cell) (a b : Nat) (hwf : WF c) :
    (candidates c).countP (fun r => r.input == a && r.output == b)
      = bucketLen c a b := by
  obtain ⟨h1, h2, h3, h4, h5, h6, h7, h8, h9, h10⟩ := hwf
  have hz : ∀ q ∈ c.product_rules, q.1 ≠ a →
      ((q.2.flatMap fun qq => qq.2).countP
        (fun r => r.input == a && r.output == b)) = 0 := by
    intro q hq hqa
    rw [List.countP_eq_zero]
    intro r hr
    rw [List.mem_flatMap] at hr
    obtain ⟨qq, hqq, hrq⟩ := hr
    have hri := (h6 q hq qq hqq r hrq).1
    simp [hri, hqa]
  have houter : (candidates c).countP (fun r => r.input == a && r.output == b)
      = ((lookupA c.product_rules a).map
          (fun v => (v.flatMap fun qq => qq.2).countP
            (fun r => r.input == a && r.output == b))).getD 0 :=
    countP_flatMap_lookup (fun r => r.input == a && r.output == b)
      c.product_rules (fun v => v.flatMap fun qq => qq.2) a h1 hz
  rw [houter]
  unfold bucketLen bucketOf
  cases hpr : lookupA c.product_rules a with
  | none => rfl
  | some inner =>
      simp only [Option.map_some', Option.getD_some]
      have hz2 : ∀ q ∈ inner, q.1 ≠ b →
          (q.2.countP (fun r => r.input == a && r.output == b)) = 0 := by
        intro q hq hqb
        rw [List.countP_eq_zero]
        intro r hr
        have hro := (h6 _ (lookupA_mem hpr) q hq r hr).2
        simp [hro, hqb]
      refine Eq.trans (countP_flatMap_lookup
        (fun r => r.input == a && r.output == b)
        inner (fun v => v) b (h2 _ (lookupA_mem hpr)) hz2) ?_
      cases hib : lookupA inner b with
      | none => rfl
      | some bucket =>
          simp only [Option.map_some', Option.getD_some]
          rw [List.countP_eq_length]
          intro r hr
          obtain ⟨hi, ho⟩ := h6 _ (lookupA_mem hpr) _ (lookupA_mem hib) r hr
          simp [hi, ho]

/-- Claim C4: on a well-formed node, `get_random_rule` draws uniformly
over the flattened list of individual rule instances, so across the
uniform draw indexes below the instance count, a pair holding k of the
n instances is drawn exactly k times — probability k n-ths — and a node
holding no rules makes the call fail with `ValueError`. -/
theorem C4_weighted_selection (c : Cell) (a b : Nat) (hwf : WF c) :
    ((List.range (candidates c).length).countP
        (fun i => ruleTypeIs (get_random_rule c i) a b)) = bucketLen c a b
    ∧ (((List.range (candidates c).length).countP
          (fun i => ruleTypeIs (get_random_rule c i) a b) : ℚ)
        / ((candidates c).length : ℚ)
        = (bucketLen c a b : ℚ) / ((candidates c).length : ℚ))
    ∧ (c.count_rules = 0 →
        ∀ i, get_random_rule c i = Except.error PyError.valueError) := by
  have hmain : ((List.range (candidates c).length).countP
      (fun i => ruleTypeIs (get_random_rule c i) a b)) = bucketLen c a b := by
    have hbr : ∀ i ∈ List.range (candidates c).length,
        ruleTypeIs (get_random_rule c i) a b
          = (fun r : ProductRule => r.input == a && r.output == b)
              ((candidates c).getD i default) := by
      intro i hi
      rw [List.mem_range] at hi
      unfold get_random_rule
      rw [sample_lt _ _ default hi]
      rfl
    have hcongr : (List.range (candidates c).length).countP
          (fun i => ruleTypeIs (get_random_rule c i) a b)
        = (List.range (candidates c).length).countP
            (fun i => (fun r : ProductRule => r.input == a && r.output == b)
              ((candidates c).getD i default)) :=
      List.countP_congr (fun i hi => by rw [hbr i hi])
    rw [hcongr]
    exact (countP_range_getD (candidates c)
      (fun r => r.input == a && r.output == b)).trans
      (countP_candidates_eq c a b hwf)
  refine ⟨hmain, by rw [hmain], ?_⟩
  intro h0 i
  have hnil : candidates c = [] := by
    have h9 := hwf.2.2.2.2.2.2.2.2.1
    have hlc := length_candidates c
    have : (candidates c).length = 0 := by omega
    exact List.eq_nil_of_length_eq_zero this
  unfold get_random_rule
  rw [hnil]
  rfl

/-- Witness for claim C4 at a concrete cell holding three instances of
type (1, 2) and one of type (3, 4): the (1, 2) pair is drawn in exactly
3 of the 4 equiprobable draws — probability 0.75. -/
theorem C4_witness :
    ((List.range (candidates cW4).length).countP
        (fun i => ruleTypeIs (get_random_rule cW4 i) 1 2)) = bucketLen cW4 1 2
    ∧ bucketLen cW4 1 2 = 3
    ∧ (candidates cW4).length = 4 :=
  ⟨(C4_weighted_selection cW4 1 2 (by decide)).1, by decide, by decide⟩

/-- Claim C7 (counterexample): a cell storing two type-1 tokens and one
type-2 token, with a compatible rule for both types, returns type 1 in
two of the three equiprobable draws and type 2 in one — so selection
among the eligible types is not uniform over the types: it is weighted by
stored-token multiplicity. -/
theorem C7_counterexample :
    (lookupA cW7.product_rules 1).isSome = true
    ∧ (lookupA cW7.product_rules 2).isSome = true
    ∧ (lookupA cW7.products 1).isSome = true
    ∧ (lookupA cW7.products 2).isSome = true
    ∧ (eligible_tokens cW7).length = 3
    ∧ (List.range 3).countP (fun j => (has_Product cW7 j).1 == some 1) = 2
    ∧ (List.range 3).countP (fun j => (has_Product cW7 j).1 == some 2) = 1
    ∧ (2 : Nat) ≠ 1 := by
  refine ⟨by decide, by decide, by decide, by decide, by decide,
    by decide, by decide, by decide⟩

/-- Claim C7 (amended): `has_Product` returns a token type the node
currently stores and still has a compatible rule for, drawn uniformly at
random among the eligible stored token instances (so a type is selected
with probability proportional to its stored-token count, not uniformly
over types); as a side effect every stored type with no matching rule has
its stack set to the empty list without the key being deleted, and the
call returns `none` when no stored type has a compatible rule. -/
theorem C7_has_matching_token (c : Cell) (i : Nat)
    (hnod : (keysA c.products).Nodup)
    (hty : ∀ q ∈ c.products, ∀ p ∈ q.2, p.ptype = q.1) :
    (∀ t, (lookupA c.product_rules t).isSome →
       (List.range (eligible_tokens c).length).countP
           (fun j => (has_Product c j).1 == some t)
         = ((lookupA c.products t).getD []).length)
    ∧ (∀ t, (has_Product c i).1 = some t →
        (lookupA c.product_rules t).isSome = true
        ∧ (lookupA c.products t).getD [] ≠ [])
    ∧ keysA (has_Product c i).2.products = keysA c.products
    ∧ (∀ t, (lookupA c.product_rules t).isSome →
        lookupA (has_Product c i).2.products t = lookupA c.products t)
    ∧ (∀ t, (lookupA c.product_rules t).isSome = false →
        lookupA (has_Product c i).2.products t
          = (lookupA c.products t).map (fun _ => []))
    ∧ ((∀ q ∈ c.products, lookupA c.product_rules q.1 = none) →
        (has_Product c i).1 = none) := by
  have hsnd : (has_Product c i).2.products
      = c.products.map (fun q =>
          (q.1, if (lookupA c.product_rules q.1).isSome then q.2 else [])) := by
    unfold has_Product
    dsimp only
    cases sample (eligible_tokens c) i <;> rfl
  have hfst : ∀ j, j < (eligible_tokens c).length →
      (has_Product c j).1
        = some ((eligible_tokens c).getD j default).ptype := by
    intro j hj
    unfold has_Product
    dsimp only
    rw [sample_lt _ _ default hj]
    rfl
  refine ⟨?_, ?_, ?_, ?_, ?_, ?_⟩
  · intro t hrt
    have hcongr : (List.range (eligible_tokens c).length).countP
          (fun j => (has_Product c j).1 == some t)
        = (List.range (eligible_tokens c).length).countP
            (fun j => (fun pk : Product => pk.ptype == t)
              ((eligible_tokens c).getD j default)) := by
      refine List.countP_congr (fun j hj => ?_)
      rw [List.mem_range] at hj
      rw [hfst j hj]
      exact Iff.rfl
    rw [hcongr]
    refine Eq.trans (countP_range_getD (eligible_tokens c)
      (fun pk => pk.ptype == t)) ?_
    unfold eligible_tokens
    have hz : ∀ q ∈ c.products, q.1 ≠ t →
        ((if (lookupA c.product_rules q.1).isSome then q.2 else []).countP
          (fun pk => pk.ptype == t)) = 0 := by
      intro q hq hqt
      by_cases hr : (lookupA c.product_rules q.1).isSome
      · rw [if_pos hr, List.countP_eq_zero]
        intro pk hpk
        have hpq := hty q hq pk hpk
        simp [hpq, hqt]
      · rw [if_neg hr]
        rfl
    have hkey := countP_flatMap_keyed (fun pk => pk.ptype == t) c.products
        (fun q => if (lookupA c.product_rules q.1).isSome then q.2 else [])
        t hnod hz
    rw [hkey]
    cases hlp : lookupA c.products t with
    | none => rfl
    | some stack =>
        simp only [Option.map_some', Option.getD_some]
        rw [if_pos hrt, List.countP_eq_length]
        intro pk hpk
        have hpt := hty (t, stack) (lookupA_mem hlp) pk hpk
        simp [hpt]
  · intro t ht
    unfold has_Product at ht
    dsimp only at ht
    cases hs : sample (eligible_tokens c) i with
    | none =>
        rw [hs] at ht
        simp at ht
    | some pk =>
        rw [hs] at ht
        dsimp only at ht
        have hpt : pk.ptype = t := by
          simpa using ht
        have hmem := sample_mem hs
        unfold eligible_tokens at hmem
        rw [List.mem_flatMap] at hmem
        obtain ⟨q, hq, hpkq⟩ := hmem
        obtain ⟨q1, q2⟩ := q
        by_cases hr : (lookupA c.product_rules q1).isSome
        · rw [if_pos hr] at hpkq
          have hq1 : pk.ptype = q1 := hty (q1, q2) hq pk hpkq
          have hqt : q1 = t := by rw [← hq1, hpt]
          subst hqt
          refine ⟨hr, ?_⟩
          rw [mem_lookupA hnod hq]
          exact fun hh => absurd (hh ▸ hpkq) (List.not_mem_nil pk)
        · rw [if_neg hr] at hpkq
          cases hpkq
  · rw [hsnd]
    exact keysA_mapval c.products
      (fun k v => if (lookupA c.product_rules k).isSome then v else [])
  · intro t hrt
    rw [hsnd]
    refine Eq.trans (lookupA_mapval c.products
      (fun k v => if (lookupA c.product_rules k).isSome then v else []) t) ?_
    cases hlp : lookupA c.products t with
    | none => rfl
    | some v => simp [hrt]
  · intro t hrt
    rw [hsnd]
    refine Eq.trans (lookupA_mapval c.products
      (fun k v => if (lookupA c.product_rules k).isSome then v else []) t) ?_
    cases hlp : lookupA c.products t with
    | none => rfl
    | some v => simp [hrt]
  · intro hall
    have hnil : eligible_tokens c = [] := by
      unfold eligible_tokens
      refine flatMap_eq_nil_of _ _ (fun q hq => ?_)
      rw [hall q hq]
      rfl
    unfold has_Product
    dsimp only
    rw [hnil]
    rfl

/-- Witness for the amended claim C7 at the concrete cell: eligible type 1
holds 2 of the 3 eligible stored tokens and is drawn in exactly 2 of the
3 equiprobable draws. -/
theorem C7_witness :
    (List.range (eligible_tokens cW7).length).countP
        (fun j => (has_Product cW7 j).1 == some 1)
      = ((lookupA cW7.products 1).getD []).length
    ∧ ((lookupA cW7.products 1).getD []).length = 2
    ∧ (eligible_tokens cW7).length = 3 :=
  ⟨(C7_has_matching_token cW7 0 (by decide) (by decide)).1 1 (by decide),
   by decide, by decide⟩

theorem WF_withActive (c : Cell) (o : Option ProductRule) (h : WF c) :
    WF { c with active_rule := o } := h

/-- Claim C1 (counterexample): in a one-cell network whose only cell
reproduces its active rule, the paired extinction draw removes a rule
instance from the reproducing node itself — there is no other node — so
the removal is not of a rule "elsewhere in the network"; the total count
is nevertheless conserved. -/
theorem C1_counterexample :
    netEx1.cells.length = 1
    ∧ isOkE (reproduce_active_rule netEx1 0 7 0) = true
    ∧ netTotal (okNetD (reproduce_active_rule netEx1 0 7 0)) = netTotal netEx1
    ∧ (okNetD (reproduce_active_rule netEx1 0 7 0)).cells.length = 1
    ∧ r1 ∈ candidates (netEx1.cells.getD 0 default)
    ∧ r1 ∉ candidates
        ((okNetD (reproduce_active_rule netEx1 0 7 0)).cells.getD 0 default) := by
  refine ⟨by decide, by decide, by decide, by decide, by decide, by decide⟩

/-- Claim C1 (amended): for a node with a non-null active rule on a
well-formed network, `reproduce_active_rule` adds exactly one new rule
instance of the active rule's (input, output) type to that node and then
triggers exactly one removal of a rule instance somewhere in the network
— possibly on the reproducing node itself — via the network's
`remove_random_rule`, so the total count of rule instances across the
whole network after the reproduction-extinction pair equals its value
before the pair. -/
theorem C1_reproduction_conservation (net : Net) (j : Nat)
    (newId iExt : Nat) (r : ProductRule)
    (hj : j < net.cells.length)
    (hact : (net.cells.getD j default).active_rule = some r)
    (hwf : ∀ c ∈ net.cells, WF c) :
    ∃ net', reproduce_active_rule net j newId iExt = Except.ok net'
      ∧ netTotal net' = netTotal net
      ∧ bucketLen (add_ProductRule (net.cells.getD j default)
            ⟨r.input, r.output, newId⟩) r.input r.output
          = bucketLen (net.cells.getD j default) r.input r.output + 1
      ∧ netTotal { net with
            cells := net.cells.set j
              (add_ProductRule (net.cells.getD j default)
                ⟨r.input, r.output, newId⟩),
            last_added_rule := net.master_count }
          = netTotal net + 1
      ∧ reproduce_active_rule net j newId iExt
          = remove_random_rule { net with
              cells := net.cells.set j
                (add_ProductRule (net.cells.getD j default)
                  ⟨r.input, r.output, newId⟩),
              last_added_rule := net.master_count } iExt := by
  obtain ⟨net', hok, hTot, _⟩ := reproduce_ok newId iExt hj hact hwf
  refine ⟨net', hok, hTot, ?_, ?_, ?_⟩
  · have hb := bucketOf_add_self (net.cells.getD j default)
      ⟨r.input, r.output, newId⟩
    unfold bucketLen
    rw [show (⟨r.input, r.output, newId⟩ : ProductRule).input = r.input
          from rfl,
        show (⟨r.input, r.output, newId⟩ : ProductRule).output = r.output
          from rfl] at hb
    rw [hb]
    simp
  · have hset := cellsSum_set net.cells j
      (add_ProductRule (net.cells.getD j default)
        ⟨r.input, r.output, newId⟩) hj
    have hlen : (candidates (add_ProductRule (net.cells.getD j default)
          ⟨r.input, r.output, newId⟩)).length
        = (candidates (net.cells.getD j default)).length + 1 := by
      rw [length_candidates, length_candidates, sumBuckets_add]
    unfold netTotal
    dsimp only
    omega
  · unfold reproduce_active_rule
    rw [hact]
    rfl

/-- Witness for the amended claim C1 at the concrete one-cell network:
the call succeeds and the network-wide instance total is unchanged. -/
theorem C1_witness :
    ∃ net', reproduce_active_rule netEx1 0 7 0 = Except.ok net'
      ∧ netTotal net' = netTotal netEx1 := by
  obtain ⟨net', hok, hTot, _⟩ :=
    C1_reproduction_conservation netEx1 0 7 0 r1 (by decide) (by decide)
      (by decide)
  exact ⟨net', hok, hTot⟩

/-- Claim C5 (counterexample): under the "source" policy, a successful
receive triggers a network-wide extinction draw which can remove a rule
from the recipient itself: at this concrete input the call succeeds, yet
the recipient's rule index changed (its only rule was removed), refuting
"the recipient's rule set is unchanged". -/
theorem C5_counterexample :
    (net5.cells.getD 1 default).repro_type = "source"
    ∧ isOkE (receive_product net5 1 0 ⟨2, 99⟩ 0 2 7) = true
    ∧ ((okNetD (receive_product net5 1 0 ⟨2, 99⟩ 0 2 7)).cells.getD 1
          default).product_rules
        ≠ (net5.cells.getD 1 default).product_rules := by
  refine ⟨by decide, by decide, by decide⟩

theorem bucketLen_add_self (c : Cell) (r : ProductRule) :
    bucketLen (add_ProductRule c r) r.input r.output
      = bucketLen c r.input r.output + 1 := by
  have hb := bucketOf_add_self c r
  unfold bucketLen
  rw [hb]
  simp

/-- Claim C5 (amended): on a well-formed network, when the recipient has a
rule accepting the token's current type: under the recipient policy
"source" the sender's previously active rule is reproduced on the sender
itself — the run factors through an intermediate network equal to the
original except that the sender's own bucket for the active rule's
(input, output) pair holds one new instance, so the network total is one
higher, after which the network-wide extinction draw removes exactly one
instance — the sender's active rule ends cleared, the recipient
reproduces nothing, and its rule-instance count can shrink by at most the
one instance the extinction draw may take from it.  Under policy "target"
the recipient draws a compatible rule of its own (its input is the
token's type) and reproduces it on itself — the run factors through an
intermediate network whose recipient cell has the drawn rule active and
one new instance of it in its own bucket — its active rule ending
cleared.  Under both policies the token is stored into the recipient's
inventory and nothing is returned to the urn. -/
theorem C5_receive_policies (net : Net) (recv send : Nat) (p : Product)
    (iRule iExt newId : Nat)
    (hrecv : recv < net.cells.length) (hsend : send < net.cells.length)
    (hwf : ∀ c ∈ net.cells, WF c)
    (hhas : has_rule (net.cells.getD recv default) p.ptype = true) :
    (∀ r, (net.cells.getD recv default).repro_type = "source" →
       send ≠ recv →
       (net.cells.getD send default).active_rule = some r →
       ∃ net' mid net3,
         receive_product net recv send p iRule iExt newId = Except.ok net'
         ∧ mid = { net with
             cells := net.cells.set send
               (add_ProductRule (net.cells.getD send default)
                 ⟨r.input, r.output, newId⟩),
             master_count := net.master_count + 1,
             last_added_rule := net.master_count + 1 }
         ∧ bucketLen (mid.cells.getD send default) r.input r.output
             = bucketLen (net.cells.getD send default) r.input r.output + 1
         ∧ netTotal mid = netTotal net + 1
         ∧ remove_random_rule mid iExt = Except.ok net3
         ∧ net' = storeProduct (setActive net3 send none) recv p
         ∧ (net'.cells.getD send default).active_rule = none
         ∧ tokenStack (net'.cells.getD recv default) p.ptype
             = tokenStack (net.cells.getD recv default) p.ptype ++ [p]
         ∧ netTotal net' = netTotal net
         ∧ (candidates (net'.cells.getD recv default)).length
             ≤ (candidates (net.cells.getD recv default)).length
         ∧ (candidates (net.cells.getD recv default)).length
             ≤ (candidates (net'.cells.getD recv default)).length + 1
         ∧ net'.urn_returns = net.urn_returns)
    ∧ ((net.cells.getD recv default).repro_type = "target" →
       ∃ r' net' mid net3,
         get_random_rule_of_type (net.cells.getD recv default)
             p.ptype iRule = Except.ok r'
         ∧ r'.input = p.ptype
         ∧ receive_product net recv send p iRule iExt newId = Except.ok net'
         ∧ mid = { net with
             cells := net.cells.set recv
               (add_ProductRule
                 ({ net.cells.getD recv default with
                      active_rule := some r' })
                 ⟨r'.input, r'.output, newId⟩),
             master_count := net.master_count + 1,
             last_added_rule := net.master_count + 1 }
         ∧ bucketLen (mid.cells.getD recv default) r'.input r'.output
             = bucketLen (net.cells.getD recv default) r'.input r'.output
                 + 1
         ∧ netTotal mid = netTotal net + 1
         ∧ remove_random_rule mid iExt = Except.ok net3
         ∧ net' = storeProduct (setActive net3 recv none) recv p
         ∧ (net'.cells.getD recv default).active_rule = none
         ∧ tokenStack (net'.cells.getD recv default) p.ptype
             = tokenStack (net.cells.getD recv default) p.ptype ++ [p]
         ∧ netTotal net' = netTotal net
         ∧ net'.urn_returns = net.urn_returns) := by
  constructor
  · intro r hpol hne hact
    set net1 : Net := { net with master_count := net.master_count + 1 }
      with hnet1
    have hact1 : (net1.cells.getD send default).active_rule = some r := hact
    have hwf1 : ∀ c ∈ net1.cells, WF c := hwf
    have hsend1 : send < net1.cells.length := hsend
    obtain ⟨net3, hrep, hTot, hLen, hMc, hUrn, hProd, hAct, hRep, hBound⟩ :=
      reproduce_ok newId iExt hsend1 hact1 hwf1
    have hkey : receive_product net recv send p iRule iExt newId
        = Except.ok (storeProduct (setActive net3 send none) recv p) := by
      unfold receive_product
      dsimp only
      simp only [get_type_eq]
      rw [hhas, if_pos rfl, hpol]
      rw [if_neg (by decide : ¬("source" = "target"))]
      rw [if_pos (rfl : "source" = "source")]
      rw [← hnet1, hrep]
    have hlen3s : send < net3.cells.length := by
      rw [hLen]
      exact hsend
    have hlen3r : recv < net3.cells.length := by
      rw [hLen]
      exact hrecv
    have hlenSAr : recv < (setActive net3 send none).cells.length := by
      rw [setActive_cells_len]
      exact hlen3r
    have hdec : reproduce_active_rule net1 send newId iExt
        = remove_random_rule { net with
            cells := net.cells.set send
              (add_ProductRule (net.cells.getD send default)
                ⟨r.input, r.output, newId⟩),
            master_count := net.master_count + 1,
            last_added_rule := net.master_count + 1 } iExt := by
      rw [hnet1]
      unfold reproduce_active_rule
      dsimp only
      rw [hact]
      rfl
    refine ⟨_, _, net3, hkey, rfl, ?_, ?_, ?_, rfl, ?_, ?_, ?_, ?_, ?_, ?_⟩
    · dsimp only
      rw [getD_set_self _ _ _ _ hsend]
      exact bucketLen_add_self (net.cells.getD send default)
        ⟨r.input, r.output, newId⟩
    · have hset := cellsSum_set net.cells send
        (add_ProductRule (net.cells.getD send default)
          ⟨r.input, r.output, newId⟩) hsend
      have hlen : (candidates (add_ProductRule (net.cells.getD send default)
            ⟨r.input, r.output, newId⟩)).length
          = (candidates (net.cells.getD send default)).length + 1 := by
        rw [length_candidates, length_candidates, sumBuckets_add]
      unfold netTotal
      dsimp only
      omega
    · rw [← hdec]
      exact hrep
    · rw [getD_store_ne _ recv send p hne,
          getD_setActive_self net3 send none hlen3s]
    · rw [getD_store_self _ recv p hlenSAr,
          getD_setActive_ne net3 send recv none (Ne.symm hne)]
      rw [tokenStack_add_self]
      unfold tokenStack
      rw [hProd recv]
    · have h1 : netTotal net1 = netTotal net := by
        rw [hnet1]
        rfl
      rw [netTotal_store _ recv p hlenSAr,
          netTotal_setActive net3 send none hlen3s, hTot, h1]
    · rw [getD_store_self _ recv p hlenSAr,
          getD_setActive_ne net3 send recv none (Ne.symm hne),
          candidates_add_Product]
      exact (hBound recv (Ne.symm hne)).1
    · rw [getD_store_self _ recv p hlenSAr,
          getD_setActive_ne net3 send recv none (Ne.symm hne),
          candidates_add_Product]
      exact (hBound recv (Ne.symm hne)).2
    · rw [store_urn, setActive_urn, hUrn]
  · intro hpol
    have hwfr : WF (net.cells.getD recv default) :=
      hwf _ (getD_mem_of_lt _ _ hrecv)
    have hsome : ∃ inner,
        lookupA (net.cells.getD recv default).product_rules p.ptype
          = some inner := by
      unfold has_rule at hhas
      cases hq : lookupA (net.cells.getD recv default).product_rules p.ptype
      · rw [hq] at hhas
        cases hhas
      · exact ⟨_, rfl⟩
    obtain ⟨inner, hinner⟩ := hsome
    have hne2 : inner.flatMap (fun q => q.2) ≠ [] := by
      obtain ⟨h1, h2, h3, h4, h5, h6, h7, h8, h9, h10⟩ := hwfr
      exact flatMap_vals_ne_nil inner (h4 _ (lookupA_mem hinner))
        (fun q hq => h5 _ (lookupA_mem hinner) q hq)
    obtain ⟨r', hs', hmem'⟩ :=
      sample_ne_nil (inner.flatMap fun q => q.2) iRule hne2
    have hr'in : r'.input = p.ptype := by
      rw [List.mem_flatMap] at hmem'
      obtain ⟨q, hq, hrq⟩ := hmem'
      obtain ⟨h1, h2, h3, h4, h5, h6, h7, h8, h9, h10⟩ := hwfr
      exact (h6 _ (lookupA_mem hinner) q hq r' hrq).1
    have hget : get_random_rule_of_type (net.cells.getD recv default)
        p.ptype iRule = Except.ok r' := by
      unfold get_random_rule_of_type
      rw [hinner]
      dsimp only
      rw [hs']
    set cNew : Cell :=
      ⟨(net.cells.getD recv default).product_rules,
       (net.cells.getD recv default).product_netrules,
       (net.cells.getD recv default).products,
       (net.cells.getD recv default).count_rules,
       some r',
       (net.cells.getD recv default).neighbors,
       (net.cells.getD recv default).repro_type⟩ with hcnew
    set net2 : Net :=
      ⟨net.cells.set recv cNew, net.master_count + 1, net.last_added_rule,
       net.retire_log, net.urn_returns⟩ with hnet2
    have hlen2 : net2.cells.length = net.cells.length := by
      rw [hnet2]
      simp
    have hrecv2 : recv < net2.cells.length := by
      rw [hlen2]
      exact hrecv
    have hact2 : (net2.cells.getD recv default).active_rule = some r' := by
      rw [hnet2]
      dsimp only
      rw [getD_set_self _ _ _ _ hrecv, hcnew]
    have hwf2 : ∀ c ∈ net2.cells, WF c := by
      intro c hc
      rw [hnet2] at hc
      dsimp only at hc
      rcases List.mem_or_eq_of_mem_set hc with hc | hc
      · exact hwf c hc
      · rw [hc, hcnew]
        exact WF_withActive (net.cells.getD recv default) (some r')
          (hwf _ (getD_mem_of_lt _ _ hrecv))
    obtain ⟨net3, hrep, hTot, hLen, hMc, hUrn, hProd, hAct, hRep, hBound⟩ :=
      reproduce_ok newId iExt hrecv2 hact2 hwf2
    have hkey : receive_product net recv send p iRule iExt newId
        = Except.ok (storeProduct (setActive net3 recv none) recv p) := by
      unfold receive_product
      dsimp only
      simp only [get_type_eq]
      rw [if_pos hhas, if_pos hpol, hget]
      dsimp only
      rw [← hcnew, ← hnet2, hrep]
    have hlen3r : recv < net3.cells.length := by
      rw [hLen, hlen2]
      exact hrecv
    have hlenSAr : recv < (setActive net3 recv none).cells.length := by
      rw [setActive_cells_len]
      exact hlen3r
    have hact2' : cNew.active_rule = some r' := by
      rw [hcnew]
    have hdec : reproduce_active_rule net2 recv newId iExt
        = remove_random_rule { net with
            cells := net.cells.set recv
              (add_ProductRule
                ({ net.cells.getD recv default with
                     active_rule := some r' })
                ⟨r'.input, r'.output, newId⟩),
            master_count := net.master_count + 1,
            last_added_rule := net.master_count + 1 } iExt := by
      rw [hnet2]
      unfold reproduce_active_rule
      dsimp only
      rw [getD_set_self _ _ _ _ hrecv, hact2']
      dsimp only
      rw [List.set_set, hcnew]
      rfl
    refine ⟨r', _, _, net3, hget, hr'in, hkey, rfl, ?_, ?_, ?_, rfl,
      ?_, ?_, ?_, ?_⟩
    · dsimp only
      rw [getD_set_self _ _ _ _ hrecv]
      exact bucketLen_add_self
        ({ net.cells.getD recv default with active_rule := some r' })
        ⟨r'.input, r'.output, newId⟩
    · have hset := cellsSum_set net.cells recv
        (add_ProductRule
          ({ net.cells.getD recv default with active_rule := some r' })
          ⟨r'.input, r'.output, newId⟩) hrecv
      have hlen : (candidates (add_ProductRule
            ({ net.cells.getD recv default with active_rule := some r' })
            ⟨r'.input, r'.output, newId⟩)).length
          = (candidates (net.cells.getD recv default)).length + 1 := by
        rw [length_candidates, length_candidates, sumBuckets_add]
        rfl
      unfold netTotal
      dsimp only at hset hlen ⊢
      omega
    · rw [← hdec]
      exact hrep
    · rw [getD_store_self _ recv p hlenSAr, active_add_Product,
          getD_setActive_self net3 recv none hlen3r]
    · rw [getD_store_self _ recv p hlenSAr]
      have hstep : tokenStack ((setActive net3 recv none).cells.getD recv
            default) p.ptype
          = tokenStack (net.cells.getD recv default) p.ptype := by
        rw [getD_setActive_self net3 recv none hlen3r]
        unfold tokenStack
        dsimp only
        rw [hProd recv]
        rw [hnet2]
        dsimp only
        rw [getD_set_self _ _ _ _ hrecv, hcnew]
      rw [tokenStack_add_self, hstep]
    · rw [netTotal_store _ recv p hlenSAr,
          netTotal_setActive net3 recv none hlen3r, hTot, hnet2]
      have hc2 := cellsSum_set net.cells recv cNew hrecv
      have hcc : (candidates cNew).length
          = (candidates (net.cells.getD recv default)).length := by
        rw [hcnew]
        rfl
      rw [hcc] at hc2
      unfold netTotal
      dsimp only
      omega
    · rw [store_urn, setActive_urn, hUrn, hnet2]

/-- Witness for the amended claim C5: at the concrete two-cell network
under the "source" policy, receiving a type-2 token succeeds, clears the
sender's active rule, stores the token in the recipient's inventory, and
conserves the network-wide rule-instance total. -/
theorem C5_witness :
    ∃ net', receive_product net5 1 0 ⟨2, 99⟩ 0 2 7 = Except.ok net'
      ∧ (net'.cells.getD 0 default).active_rule = none
      ∧ tokenStack (net'.cells.getD 1 default) 2
          = tokenStack (net5.cells.getD 1 default) 2 ++ [⟨2, 99⟩]
      ∧ netTotal net' = netTotal net5 := by
  obtain ⟨net', mid, net3, hok, hmid, hbuck, hmidtot, hrem, hnet',
      hacts, htok, htot, _⟩ :=
    (C5_receive_policies net5 1 0 ⟨2, 99⟩ 0 2 7 (by decide) (by decide)
      (by decide) (by decide)).1 r1 (by decide) (by decide) (by decide)
  exact ⟨net', hok, hacts, htok, htot⟩

end ACCells
